import Mathlib

/-!
Root-cause classification of JUnit failure messages (`cmd/parse.go`).

A shallow embedding of `getRootCause` and of the library calls it makes
(`strings.Trim`, `strings.Contains`, `strings.ReplaceAll`,
`regexp.FindStringSubmatch`).  A Go string is modelled by the list of its
characters.  Every pattern and cutset in the program is ASCII, so matching on
characters and matching on the bytes of a UTF-8 string agree.
-/

namespace JunitParser

set_option maxRecDepth 100000

/-! ## Strings -/

/-- Go string, as the list of its characters. -/
abbrev Str := List Char

/-- Cutset membership test used by `strings.Trim`. -/
def inCutset (cutset : Str) (c : Char) : Bool := cutset.contains c

/-- Go `strings.TrimRight(s, cutset)`: drop the trailing characters that are in the cutset. -/
def TrimRight (s cutset : Str) : Str := (s.reverse.dropWhile (inCutset cutset)).reverse

/-- Go `strings.TrimLeft(s, cutset)`: drop the leading characters that are in the cutset. -/
def TrimLeft (s cutset : Str) : Str := s.dropWhile (inCutset cutset)

/-- Go `strings.Trim(s, cutset)`: both ends are stripped of cutset characters. -/
def Trim (s cutset : Str) : Str := TrimLeft (TrimRight s cutset) cutset

/-- Go `strings.Contains(s, substr)`: some suffix of `s` starts with `substr`. -/
def Contains : Str → Str → Bool
  | [], substr => substr.isPrefixOf []
  | c :: t, substr => substr.isPrefixOf (c :: t) || Contains t substr

/-- Left-to-right scan of `strings.ReplaceAll` for a non-empty `old`. The counter
is the number of characters of the occurrence just replaced that are still to be
skipped, so that occurrences never overlap. -/
def replaceScan (old new : Str) : Nat → Str → Str
  | _, [] => []
  | skip + 1, _ :: t => replaceScan old new skip t
  | 0, c :: t =>
    if old.isPrefixOf (c :: t) then new ++ replaceScan old new (old.length - 1) t
    else c :: replaceScan old new 0 t

/-- Go `strings.ReplaceAll(s, old, new)`: every non-overlapping occurrence of
`old`, found from the left, is replaced by `new`; an empty `old` matches before
every character and at the end. -/
def ReplaceAll (s old new : Str) : Str :=
  if old.isEmpty then new ++ s.flatMap (fun c => c :: new)
  else replaceScan old new 0 s

/-! ## Regular expressions (Go `regexp`, leftmost-first semantics) -/

/-- Syntax tree of a pattern, after `regexp/syntax`: the operators that occur in
the pattern of `getRootCause`. There is one capture group, number 1. -/
inductive Regex where
  | literal (runes : Str)
  | anyCharNotNL
  | concat (a b : Regex)
  | alternate (a b : Regex)
  | capture (a : Regex)
  | star (greedy : Bool) (a : Regex)
  | plus (greedy : Bool) (a : Regex)

/-- A thread of the backtracking search: the unread input and the text of group 1
(`none` while the group has not taken part in the match). -/
abbrev Thread := Str × Option Str

/-- Repetition. `step` runs the body once; the results are listed in the order in
which a backtracking search tries them: a greedy loop tries one more iteration
first, a non-greedy loop tries to stop first. An iteration has to consume input,
so `fuel = length of the input` iterations are enough. -/
def starLoop (step : Str → Option Str → List Thread) (greedy : Bool) :
    Nat → Thread → List Thread
  | 0, th => [th]
  | fuel + 1, th =>
    let more := ((step th.1 th.2).filter (fun th2 => th2.1.length < th.1.length)).flatMap
      (starLoop step greedy fuel)
    if greedy then more ++ [th] else th :: more

/-- All the ways in which `re` matches a prefix of the input, in the priority order
of a backtracking search (the order that defines the match Go returns). -/
def Regex.run : Regex → Str → Option Str → List Thread
  | .literal runes, s, cap => if runes.isPrefixOf s then [(s.drop runes.length, cap)] else []
  | .anyCharNotNL, s, cap =>
    match s with
    | [] => []
    | c :: t => if c = '\n' then [] else [(t, cap)]
  | .concat a b, s, cap => (a.run s cap).flatMap (fun th => b.run th.1 th.2)
  | .alternate a b, s, cap => a.run s cap ++ b.run s cap
  | .capture a, s, cap =>
    (a.run s cap).map (fun th => (th.1, some (s.take (s.length - th.1.length))))
  | .star greedy a, s, cap => starLoop (fun s2 cap2 => a.run s2 cap2) greedy s.length (s, cap)
  | .plus greedy a, s, cap =>
    (a.run s cap).flatMap (starLoop (fun s2 cap2 => a.run s2 cap2) greedy s.length)

/-- The preferred match that starts at the beginning of `s`: matched text and group 1. -/
def Regex.matchAt (re : Regex) (s : Str) : Option (Str × Option Str) :=
  match (re.run s none).head? with
  | some th => some (s.take (s.length - th.1.length), th.2)
  | none => none

/-- Leftmost match: the start positions are tried from left to right. -/
def Regex.search (re : Regex) : Str → Option (Str × Option Str)
  | [] => re.matchAt []
  | c :: t =>
    match re.matchAt (c :: t) with
    | some m => some m
    | none => Regex.search re t

/-- Go `(*Regexp).FindStringSubmatch`, for a pattern with one group: `nil` (the
empty slice) when there is no match, otherwise the matched text followed by the
text of group 1, which is the empty string when the group did not take part. -/
def FindStringSubmatch (re : Regex) (s : Str) : List Str :=
  match re.search s with
  | none => []
  | some (whole, cap) => [whole, cap.getD []]

/-! ## `cmd/parse.go` -/

/-- Go `type Issue int`. -/
abbrev Issue := Int

def assertionIssue : Issue := 0
def scriptIssue : Issue := 1
def infraIssue : Issue := 2
def configOrDBIssue : Issue := 3

/-- Go `type RootCause struct`. -/
structure RootCause where
  issueType : Issue
  rootCauseMessage : Str
  deriving DecidableEq, Repr

/-- The cutset of both calls of `strings.Trim`: tab, LF, VT, FF, CR, space. -/
def trimCutset : Str := ['\t', '\n', Char.ofNat 11, Char.ofNat 12, '\r', ' ']

/-- The literal tested by the first `strings.Contains`. -/
def httpRangeLiteral : Str :=
  "HTTP status code is not in the range 200~299, but the response is not nil".toList

/-- The literal removed by the first `strings.ReplaceAll`: the one above and a comma. -/
def httpRangeLiteralComma : Str :=
  "HTTP status code is not in the range 200~299, but the response is not nil,".toList

/-- The literal tested by the second `strings.Contains`. -/
def errorStringMarker : Str := " &errors.errorString\x7b".toList

/-- The literal removed by the last `strings.ReplaceAll`: `s:` and a double quote. -/
def quoteArtifact : Str := ['s', ':', '"']

/-- The pattern `Error:(.*?)\n|\r|\t.+Test:` as `regexp.MustCompile` parses it:
alternation binds loosest, so there are three alternatives and the group belongs
to the first one only. -/
def errMessageRegEx : Regex :=
  .alternate
    (.concat (.literal "Error:".toList)
      (.concat (.capture (.star false .anyCharNotNL)) (.literal ['\n'])))
    (.alternate
      (.literal ['\r'])
      (.concat (.literal ['\t'])
        (.concat (.plus true .anyCharNotNL) (.literal "Test:".toList))))

/-- The function `getRootCause`. The result is `none` where the Go code would panic
(the index expression `errMessage[1]` out of range). -/
def getRootCause (failureMessage : Str) : Option RootCause :=
  let rootCause : RootCause := ⟨0, []⟩
  let newMsg := Trim failureMessage trimCutset
  let errMessage := FindStringSubmatch errMessageRegEx newMsg
  if errMessage.length > 0 then
    match errMessage.get? 1 with
    | none => none
    | some s =>
      let (rootCause, msg) :=
        if Contains s httpRangeLiteral then
          let msg := ReplaceAll s httpRangeLiteralComma []
          ({ rootCause with issueType := infraIssue }, msg)
        else
          let rootCause := { rootCause with issueType := assertionIssue }
          let rootCause :=
            if Contains s errorStringMarker then { rootCause with issueType := configOrDBIssue }
            else rootCause
          (rootCause, s)
      let msg := Trim msg trimCutset
      some { rootCause with rootCauseMessage := ReplaceAll msg quoteArtifact [] }
  else
    some { rootCause with rootCauseMessage := "panic in execution".toList, issueType := scriptIssue }

/-- Go `func (i Issue) String() string`: an index into the array of the four
labels. The result is `none` where the index expression panics (index out of range). -/
def Issue.String (i : Issue) : Option Str :=
  if 0 ≤ i then
    ["Assertion".toList, "Script".toList, "Infrastructure".toList, "Config Or DB".toList].get?
      i.toNat
  else none

/-- The `failure` element of a test case (`Typ` is the field `Type`). -/
structure Failure where
  Text : Str := []
  Message : Str := []
  Typ : Str := []

/-- The `testcase` element. -/
structure Testcase where
  Text : Str := []
  Classname : Str := []
  Name : Str := []
  Time : Str := []
  Failure : Failure := {}

/-- The `property` element. -/
structure Property where
  Text : Str := []
  Name : Str := []
  Value : Str := []

/-- The `properties` element. -/
structure Properties where
  Text : Str := []
  Property : Property := {}

/-- The `testsuite` element. -/
structure TestSuite where
  Text : Str := []
  Tests : Str := []
  Failures : Str := []
  Time : Str := []
  Name : Str := []
  Timestamp : Str := []
  Properties : Properties := {}
  Testcase : List Testcase := []

/-- Go `type TestSuites struct`, the decoded report (`XMLName` is kept as its local name). -/
structure TestSuites where
  XMLName : Str := []
  Text : Str := []
  Tests : Str := []
  Failures : Str := []
  Errors : Str := []
  Time : Str := []
  TestSuite : List TestSuite := []

/-- Go `type TestResult struct`; the pointer `rootCause` is the non-nil result of
`getRootCause`. -/
structure TestResult where
  testCaseName : Str
  rootCause : RootCause
  deriving DecidableEq

/-- The function `ReadJunitXml`. The file system and `xml.Unmarshal` are inputs:
`opened` is the error of `os.Open` or the bytes read, `unmarshal` decodes them. The
result is the pair of the pointer (`none` is `nil`) and the error (`none` is `nil`). -/
def ReadJunitXml (opened : Except Str Str) (unmarshal : Str → Except Str TestSuites) :
    Option TestSuites × Option Str :=
  match opened with
  | .error err => (none, some err)
  | .ok byteValue =>
    match unmarshal byteValue with
    | .error err => (none, some err)
    | .ok testSuites => (some testSuites, none)

/-- The inner loop of `parseCmd.Run` over the test cases of one suite; `testResults`
is the slice built so far. `none` is a panic inside `getRootCause`. -/
def appendTestcases : List Testcase → List TestResult → Option (List TestResult)
  | [], testResults => some testResults
  | testCase :: rest, testResults =>
    if testCase.Failure.Message ≠ [] ∧ Contains testCase.Name "Test_".toList = true then
      match getRootCause testCase.Failure.Text with
      | none => none
      | some rootCauseInfo =>
        appendTestcases rest (testResults ++ [⟨testCase.Name, rootCauseInfo⟩])
    else appendTestcases rest testResults

/-- The outer loop of `parseCmd.Run` over the suites. -/
def appendSuites : List TestSuite → List TestResult → Option (List TestResult)
  | [], testResults => some testResults
  | testSuite :: rest, testResults =>
    if testSuite.Failures ≠ "0".toList then
      match appendTestcases testSuite.Testcase testResults with
      | none => none
      | some testResults2 => appendSuites rest testResults2
    else appendSuites rest testResults

/-- What the command prints: the error of the loader, and per result the four
lines of the second loop. -/
inductive OutputLine where
  | loadError (err : Str)
  | testCaseName (number : Nat) (name : Str)
  | rootCause (message : Str)
  | issueType (label : Str)
  | separator
  deriving DecidableEq

/-- The end of a run: the lines printed and whether the run ended in a panic. -/
structure RunResult where
  printed : List OutputLine
  panicked : Bool
  deriving DecidableEq

/-- The printing loop of `parseCmd.Run`; `i` is the index of the first result of
the list. `Issue.String` is called by the `%s` verb. -/
def printResults : Nat → List TestResult → List OutputLine → RunResult
  | _, [], printed => ⟨printed, false⟩
  | i, r :: rest, printed =>
    match Issue.String r.rootCause.issueType with
    | none =>
      ⟨printed ++ [.testCaseName (i + 1) r.testCaseName,
        .rootCause r.rootCause.rootCauseMessage], true⟩
    | some label =>
      printResults (i + 1) rest
        (printed ++ [.testCaseName (i + 1) r.testCaseName,
          .rootCause r.rootCause.rootCauseMessage, .issueType label, .separator])

/-- The function `parseCmd.Run`, applied to the result of `ReadJunitXml(filePath)`.
The field access `testSuites.TestSuite` through a `nil` pointer is a panic. -/
def Run (loaded : Option TestSuites × Option Str) : RunResult :=
  let printed : List OutputLine :=
    match loaded.2 with
    | some err => [.loadError err]
    | none => []
  match loaded.1 with
  | none => ⟨printed, true⟩
  | some testSuites =>
    match appendSuites testSuites.TestSuite [] with
    | none => ⟨printed, true⟩
    | some testResults => printResults 0 testResults printed

/-! ## Definitions used in the proofs -/

/-- The threads of the non-greedy `.*?`, in priority order: stop here, or read one
more character that is not a newline. -/
def lazyThreads (cap : Option Str) : Str → List Thread
  | [] => [([], cap)]
  | c :: t => (c :: t, cap) :: (if c = '\n' then [] else lazyThreads cap t)

/-- The first alternative, `Error:(.*?)\n`. -/
def altError : Regex :=
  .concat (.literal "Error:".toList)
    (.concat (.capture (.star false .anyCharNotNL)) (.literal ['\n']))

/-- The second alternative, `\r`. -/
def altCR : Regex := .literal ['\r']

/-- The third alternative, `\t.+Test:`. -/
def altTabTest : Regex :=
  .concat (.literal ['\t']) (.concat (.plus true .anyCharNotNL) (.literal "Test:".toList))

/-- The result that `getRootCause` builds from the captured segment `s`
(the body of `if len(errMessage) > 0`). -/
def rootCauseOfSegment (s : Str) : RootCause :=
  if Contains s httpRangeLiteral then
    ⟨infraIssue, ReplaceAll (Trim (ReplaceAll s httpRangeLiteralComma []) trimCutset)
      quoteArtifact []⟩
  else if Contains s errorStringMarker then
    ⟨configOrDBIssue, ReplaceAll (Trim s trimCutset) quoteArtifact []⟩
  else
    ⟨assertionIssue, ReplaceAll (Trim s trimCutset) quoteArtifact []⟩

/-- The result of the no-match path. -/
def fallbackRootCause : RootCause := ⟨scriptIssue, "panic in execution".toList⟩

/-- Patterns without a capture group. -/
def Regex.captureFree : Regex → Bool
  | .literal _ => true
  | .anyCharNotNL => true
  | .concat a b => a.captureFree && b.captureFree
  | .alternate a b => a.captureFree && b.captureFree
  | .capture _ => false
  | .star _ a => a.captureFree
  | .plus _ a => a.captureFree

/-- The value of `msg` after the second `strings.Trim` of `getRootCause`, the text
that the last `strings.ReplaceAll` receives; on the no-match path, the literal
message. -/
def trimmedMessage (failureMessage : Str) : Str :=
  match FindStringSubmatch errMessageRegEx (Trim failureMessage trimCutset) with
  | [_, s] =>
    Trim (if Contains s httpRangeLiteral then ReplaceAll s httpRangeLiteralComma [] else s)
      trimCutset
  | _ => "panic in execution".toList

/-! ## The specification's reading of step 4a -/

/-- Following the wording of the specification (4a), for comparison with the code:
the segment with every occurrence of the literal removed, together with one comma
immediately following the occurrence when there is one. The counter is the number
of characters of the occurrence that are still to be dropped. -/
def removeLiteralAndComma (lit : Str) : Nat → Str → Str
  | _, [] => []
  | skip + 1, _ :: t => removeLiteralAndComma lit skip t
  | 0, c :: t =>
    if lit.isPrefixOf (c :: t) then
      if (t.drop (lit.length - 1)).head? = some ',' then removeLiteralAndComma lit lit.length t
      else removeLiteralAndComma lit (lit.length - 1) t
    else c :: removeLiteralAndComma lit 0 t

/-! ## The specification's reading of the selection of test cases -/

/-- Following the wording of the specification: the test cases of a report in
document order, suites in order and test cases in order inside each suite, each
with its enclosing suite. -/
def documentOrder (suites : List TestSuite) : List (TestSuite × Testcase) :=
  suites.flatMap (fun suite => suite.Testcase.map (fun testCase => (suite, testCase)))

/-- Following the wording of the specification: a test case has a non-empty failure
section when its `failure` element holds anything at all. -/
def hasNonEmptyFailureSection (testCase : Testcase) : Bool :=
  decide (testCase.Failure.Text ≠ [] ∨ testCase.Failure.Message ≠ []
    ∨ testCase.Failure.Typ ≠ [])

/-- The test that the code applies to a test case and its suite: the `failures`
attribute of the suite is not `0`, the `message` attribute of the failure is not
empty, the name holds `Test_`. -/
def isSelected (entry : TestSuite × Testcase) : Bool :=
  decide (entry.1.Failures ≠ "0".toList) && decide (entry.2.Failure.Message ≠ [])
    && Contains entry.2.Name "Test_".toList

/-! ## The specification's reading of the capture -/

/-- Following the wording of the specification (step 2): the text up to, and not
including, the next newline, carriage-return or tab character. -/
def upToTerminator (t : Str) : Str :=
  t.takeWhile (fun c => c ≠ '\n' && c ≠ '\r' && c ≠ '\t')

/-- A report of one suite with one failure, whose test case `Test_A` has a failure
text and no `message` attribute. -/
def reportWithoutMessage : TestSuites :=
  { TestSuite := [{ Failures := "1".toList,
                    Testcase := [{ Name := "Test_A".toList,
                                   Failure := { Text := "Error: x\nTest: Test_A".toList } }] }] }

/-! ## Auxiliary facts: trimming -/

theorem dropWhile_append_stop (f : Char → Bool) (a b : Str) (x : Char) (hx : f x = false) :
    (a ++ x :: b).dropWhile f = a.dropWhile f ++ x :: b := by
  induction a with
  | nil => simp [List.dropWhile_cons, hx]
  | cons y a ih =>
    by_cases hy : f y = true
    · simp [List.dropWhile_cons, hy, ih]
    · simp [List.dropWhile_cons, hy]

theorem TrimRight_eq_rdropWhile (s cutset : Str) :
    TrimRight s cutset = s.rdropWhile (inCutset cutset) := rfl

theorem TrimRight_append (cutset a b : Str) (hb : ∃ x ∈ b, inCutset cutset x = false) :
    TrimRight (a ++ b) cutset = a ++ TrimRight b cutset ∧ TrimRight b cutset ≠ [] := by
  simp only [TrimRight_eq_rdropWhile]
  induction b using List.reverseRecOn with
  | nil => simp at hb
  | append_singleton b z ih =>
    rw [← List.append_assoc, List.rdropWhile_concat, List.rdropWhile_concat]
    by_cases hz : inCutset cutset z = true
    · have hb2 : ∃ x ∈ b, inCutset cutset x = false := by
        obtain ⟨x, hx, hxc⟩ := hb
        rcases List.mem_append.1 hx with h | h
        · exact ⟨x, h, hxc⟩
        · simp at h; subst h; simp [hz] at hxc
      simpa [hz] using ih hb2
    · simp [hz]

theorem Trim_of_all_cut (cutset s : Str) (h : ∀ x ∈ s, inCutset cutset x = true) :
    Trim s cutset = [] := by
  have h1 : TrimRight s cutset = [] := by
    unfold TrimRight
    rw [List.reverse_eq_nil_iff, List.dropWhile_eq_nil_iff]
    intro x hx
    exact h x (List.mem_reverse.1 hx)
  simp [Trim, h1, TrimLeft]

theorem inCutset_eq_false {cutset : Str} {x : Char} (h : x ∉ cutset) :
    inCutset cutset x = false := by
  simpa [inCutset] using h

theorem inCutset_eq_true {cutset : Str} {x : Char} (h : x ∈ cutset) :
    inCutset cutset x = true := by
  simpa [inCutset] using h

/-- Trimming a text whose first part ends in front of a character that is kept and
whose last part holds a character that is kept. -/
theorem Trim_sandwich (cutset p m r : Str) (x : Char) (hx : inCutset cutset x = false)
    (hr : ∃ y ∈ r, inCutset cutset y = false) :
    Trim (p ++ x :: (m ++ r)) cutset = TrimLeft p cutset ++ x :: (m ++ TrimRight r cutset)
      ∧ TrimRight r cutset ≠ [] := by
  have h := TrimRight_append cutset (p ++ x :: m) r hr
  refine ⟨?_, h.2⟩
  have e : p ++ x :: (m ++ r) = (p ++ x :: m) ++ r := by simp
  rw [Trim, e, h.1, TrimLeft]
  have e2 : (p ++ x :: m) ++ TrimRight r cutset = p ++ x :: (m ++ TrimRight r cutset) := by simp
  rw [e2, dropWhile_append_stop _ _ _ _ hx, TrimLeft]

/-! ## Auxiliary facts: the three alternatives of the pattern -/

theorem starLoop_lazy (step : Str → Option Str → List Thread)
    (h0 : ∀ cap, step [] cap = [])
    (h1 : ∀ c t cap, step (c :: t) cap = if c = '\n' then [] else [(t, cap)])
    (cap : Option Str) (t : Str) (fuel : Nat) (h : t.length ≤ fuel) :
    starLoop step false fuel (t, cap) = lazyThreads cap t := by
  induction t generalizing fuel with
  | nil => cases fuel <;> simp [starLoop, lazyThreads, h0]
  | cons c t ih =>
    cases fuel with
    | zero => simp at h
    | succ k =>
      have hk : t.length ≤ k := by simpa using h
      by_cases hc : c = '\n'
      · simp [starLoop, lazyThreads, h1, hc]
      · simp [starLoop, lazyThreads, h1, hc, ih k hk]

theorem starLoop_lazy_any (cap : Option Str) (t : Str) (fuel : Nat) (h : t.length ≤ fuel) :
    starLoop (fun s2 cap2 => Regex.anyCharNotNL.run s2 cap2) false fuel (t, cap)
      = lazyThreads cap t :=
  starLoop_lazy _ (fun _ => by simp [Regex.run]) (fun _ _ _ => by simp [Regex.run]) cap t fuel h

theorem errMessageRegEx_eq : errMessageRegEx = .alternate altError (.alternate altCR altTabTest) :=
  rfl

theorem errorLit_eq : "Error:".toList = ['E', 'r', 'r', 'o', 'r', ':'] := rfl

/-- What `(.*?)\n` yields on the threads of the lazy loop over `c ++ "\n" ++ r`. -/
theorem lazy_then_newline (s0 c r : Str) (cap : Option Str) (hc : '\n' ∉ c) :
    ((lazyThreads cap (c ++ '\n' :: r)).map
        (fun th => (th.1, some (s0.take (s0.length - th.1.length))))).flatMap
      (fun th => (Regex.literal ['\n']).run th.1 th.2)
      = [(r, some (s0.take (s0.length - (r.length + 1))))] := by
  induction c with
  | nil => simp [lazyThreads, Regex.run]
  | cons x c ih =>
    have hx : x ≠ '\n' := fun e => hc (by simp [e])
    have hx2 : ¬ '\n' = x := fun e => hx e.symm
    have hc2 : '\n' ∉ c := fun e => hc (by simp [e])
    have := ih hc2
    rw [List.cons_append, lazyThreads]
    simp only [hx, if_false, List.map_cons, List.flatMap_cons]
    rw [this]
    simp [Regex.run, hx2]

theorem lazy_no_newline (s0 t : Str) (cap : Option Str) (ht : '\n' ∉ t) :
    ((lazyThreads cap t).map
        (fun th => (th.1, some (s0.take (s0.length - th.1.length))))).flatMap
      (fun th => (Regex.literal ['\n']).run th.1 th.2) = [] := by
  induction t with
  | nil => simp [lazyThreads, Regex.run]
  | cons x t ih =>
    have hx : x ≠ '\n' := fun e => ht (by simp [e])
    have hx2 : ¬ '\n' = x := fun e => hx e.symm
    have ht2 : '\n' ∉ t := fun e => ht (by simp [e])
    have := ih ht2
    rw [lazyThreads]
    simp only [hx, if_false, List.map_cons, List.flatMap_cons]
    rw [this]
    simp [Regex.run, hx2]

/-- The first alternative on a text that starts with `Error:`, continues with a
segment `c` free of newlines and then a newline: one thread, group 1 is `c`. -/
theorem altError_run_line (c r : Str) (cap : Option Str) (hc : '\n' ∉ c) :
    altError.run ("Error:".toList ++ (c ++ '\n' :: r)) cap = [(r, some c)] := by
  have h1 : (Regex.literal "Error:".toList).run ("Error:".toList ++ (c ++ '\n' :: r)) cap
      = [(c ++ '\n' :: r, cap)] := by
    simp [Regex.run, errorLit_eq]
  have h2 := lazy_then_newline (c ++ '\n' :: r) c r cap hc
  have h3 : (c ++ '\n' :: r).length - (r.length + 1) = c.length := by simp
  rw [h3] at h2
  simp only [List.take_left] at h2
  rw [altError, Regex.run, h1]
  simp only [List.flatMap_cons, List.flatMap_nil, List.append_nil]
  rw [Regex.run, Regex.run, Regex.run, starLoop_lazy_any cap _ _ (le_refl _)]
  exact h2

/-- The first alternative fails where the text does not start with `Error:`. -/
theorem altError_run_no_marker (s : Str) (cap : Option Str)
    (h : ¬ "Error:".toList <+: s) : altError.run s cap = [] := by
  have h1 : ("Error:".toList).isPrefixOf s = false := by
    rw [← Bool.not_eq_true, List.isPrefixOf_iff_prefix]
    exact h
  rw [altError, Regex.run]
  simp only [Regex.run, h1]
  simp

/-- The first alternative fails where no newline follows `Error:`. -/
theorem altError_run_no_newline (t : Str) (cap : Option Str) (ht : '\n' ∉ t) :
    altError.run ("Error:".toList ++ t) cap = [] := by
  have h1 : (Regex.literal "Error:".toList).run ("Error:".toList ++ t) cap = [(t, cap)] := by
    simp [Regex.run, errorLit_eq]
  rw [altError, Regex.run, h1]
  simp only [List.flatMap_cons, List.flatMap_nil, List.append_nil]
  rw [Regex.run, Regex.run, Regex.run, starLoop_lazy_any cap _ _ (le_refl _)]
  exact lazy_no_newline t t cap ht

theorem altCR_run_cons (x : Char) (t : Str) (cap : Option Str) (hx : x ≠ '\r') :
    altCR.run (x :: t) cap = [] := by
  have hx2 : ¬ '\r' = x := fun e => hx e.symm
  simp [altCR, Regex.run, hx2]

theorem altTabTest_run_cons (x : Char) (t : Str) (cap : Option Str) (hx : x ≠ '\t') :
    altTabTest.run (x :: t) cap = [] := by
  have hx2 : ¬ '\t' = x := fun e => hx e.symm
  simp [altTabTest, Regex.run, hx2]

/-! ## Auxiliary facts: the leftmost match -/

theorem matchAt_errorLine (c r : Str) (hc : '\n' ∉ c) :
    errMessageRegEx.matchAt ("Error:".toList ++ (c ++ '\n' :: r))
      = some ("Error:".toList ++ (c ++ ['\n']), some c) := by
  have h : errMessageRegEx.run ("Error:".toList ++ (c ++ '\n' :: r)) none
      = (r, some c) :: (Regex.alternate altCR altTabTest).run
          ("Error:".toList ++ (c ++ '\n' :: r)) none := by
    rw [errMessageRegEx_eq, Regex.run, altError_run_line c r none hc]
    rfl
  have e : "Error:".toList ++ (c ++ '\n' :: r) = ("Error:".toList ++ (c ++ ['\n'])) ++ r := by
    simp
  rw [Regex.matchAt, h]
  simp only [List.head?_cons]
  congr 2
  rw [e, List.length_append, Nat.add_sub_cancel, List.take_left]

theorem matchAt_none_of_cons (x : Char) (t : Str) (h1 : x ≠ '\r') (h2 : x ≠ '\t')
    (h3 : ¬ "Error:".toList <+: x :: t) : errMessageRegEx.matchAt (x :: t) = none := by
  have h : errMessageRegEx.run (x :: t) none = [] := by
    rw [errMessageRegEx_eq, Regex.run, Regex.run, altError_run_no_marker _ _ h3,
      altCR_run_cons x t none h1, altTabTest_run_cons x t none h2]
    rfl
  rw [Regex.matchAt, h]
  rfl

/-- The marker `Error:` has no proper border: an occurrence that starts inside a
non-empty text `q` in front of the marker lies inside `q`. -/
theorem error_prefix_no_straddle (q rest : Str) (hq : q ≠ [])
    (h : ¬ "Error:".toList <:+: q) : ¬ "Error:".toList <+: q ++ ("Error:".toList ++ rest) := by
  intro hp
  rw [errorLit_eq] at h hp
  rcases q with _ | ⟨a1, _ | ⟨a2, _ | ⟨a3, _ | ⟨a4, _ | ⟨a5, _ | ⟨a6, q⟩⟩⟩⟩⟩⟩
  · exact hq rfl
  · simp [List.cons_prefix_cons] at hp
  · simp [List.cons_prefix_cons] at hp
  · simp [List.cons_prefix_cons] at hp
  · simp [List.cons_prefix_cons] at hp
  · simp [List.cons_prefix_cons] at hp
  · apply h
    have hp2 : ['E', 'r', 'r', 'o', 'r', ':'] <+: a1 :: a2 :: a3 :: a4 :: a5 :: a6 :: q := by
      simp only [List.cons_append, List.cons_prefix_cons] at hp
      simp only [List.cons_prefix_cons]
      exact ⟨hp.1, hp.2.1, hp.2.2.1, hp.2.2.2.1, hp.2.2.2.2.1, hp.2.2.2.2.2.1, List.nil_prefix⟩
    exact hp2.isInfix

/-- The leftmost match on a text whose first `Error:` follows a part `p` free of
carriage returns and tabs, and is followed by a segment `c` and a newline. -/
theorem search_errorLine (p c r : Str) (hp1 : '\r' ∉ p) (hp2 : '\t' ∉ p)
    (hp3 : ¬ "Error:".toList <:+: p) (hc : '\n' ∉ c) :
    errMessageRegEx.search (p ++ ("Error:".toList ++ (c ++ '\n' :: r)))
      = some ("Error:".toList ++ (c ++ ['\n']), some c) := by
  induction p with
  | nil =>
    have h := matchAt_errorLine c r hc
    rw [errorLit_eq] at h ⊢
    simp only [List.nil_append, List.cons_append] at h ⊢
    rw [Regex.search, h]
  | cons x p ih =>
    have hx1 : x ≠ '\r' := fun e => hp1 (by simp [e])
    have hx2 : x ≠ '\t' := fun e => hp2 (by simp [e])
    have hq1 : '\r' ∉ p := fun e => hp1 (by simp [e])
    have hq2 : '\t' ∉ p := fun e => hp2 (by simp [e])
    have hq3 : ¬ "Error:".toList <:+: p := fun e => hp3 (List.infix_cons e)
    have hns := error_prefix_no_straddle (x :: p) (c ++ '\n' :: r) (by simp) hp3
    rw [List.cons_append] at hns ⊢
    rw [Regex.search, matchAt_none_of_cons x _ hx1 hx2 hns]
    exact ih hq1 hq2 hq3

theorem find_errorLine (p c r : Str) (hp1 : '\r' ∉ p) (hp2 : '\t' ∉ p)
    (hp3 : ¬ "Error:".toList <:+: p) (hc : '\n' ∉ c) :
    FindStringSubmatch errMessageRegEx (p ++ ("Error:".toList ++ (c ++ '\n' :: r)))
      = ["Error:".toList ++ (c ++ ['\n']), c] := by
  rw [FindStringSubmatch, search_errorLine p c r hp1 hp2 hp3 hc]
  rfl

/-- The pattern does not match the empty text. -/
theorem find_nil : FindStringSubmatch errMessageRegEx [] = [] := by decide

/-! ## Auxiliary facts: `getRootCause` after the match -/

theorem getRootCause_of_match (input w s : Str)
    (h : FindStringSubmatch errMessageRegEx (Trim input trimCutset) = [w, s]) :
    getRootCause input = some (rootCauseOfSegment s) := by
  unfold getRootCause rootCauseOfSegment
  simp only [h]
  by_cases h1 : Contains s httpRangeLiteral = true
  · simp [h1]
  · by_cases h2 : Contains s errorStringMarker = true
    · simp [h1, h2]
    · simp [h1, h2]

theorem getRootCause_of_no_match (input : Str)
    (h : FindStringSubmatch errMessageRegEx (Trim input trimCutset) = []) :
    getRootCause input = some fallbackRootCause := by
  unfold getRootCause fallbackRootCause
  simp [h]

/-- The pattern yields no match or a slice of two strings. -/
theorem find_shape (re : Regex) (t : Str) :
    FindStringSubmatch re t = [] ∨ ∃ w s, FindStringSubmatch re t = [w, s] := by
  unfold FindStringSubmatch
  cases h : re.search t with
  | none => exact Or.inl rfl
  | some m => exact Or.inr ⟨m.1, m.2.getD [], rfl⟩

theorem Contains_iff (s sub : Str) : Contains s sub = true ↔ sub <:+: s := by
  induction s with
  | nil =>
    rw [Contains, List.isPrefixOf_iff_prefix]
    simp
  | cons c t ih =>
    rw [Contains, Bool.or_eq_true, List.isPrefixOf_iff_prefix, ih, List.infix_cons_iff]

theorem rootCauseOfSegment_issueType (s : Str) :
    (rootCauseOfSegment s).issueType = assertionIssue
      ∨ (rootCauseOfSegment s).issueType = infraIssue
      ∨ (rootCauseOfSegment s).issueType = configOrDBIssue := by
  unfold rootCauseOfSegment
  split_ifs <;> simp

/-- The path of `getRootCause` on a text whose first `Error:` line is `c`. -/
theorem getRootCause_errorLine (p c r : Str) (hp1 : '\r' ∉ p) (hp2 : '\t' ∉ p)
    (hp3 : ¬ "Error:".toList <:+: p) (hc : '\n' ∉ c) (hr : ∃ x ∈ r, x ∉ trimCutset) :
    (∃ w, FindStringSubmatch errMessageRegEx
        (Trim (p ++ "Error:".toList ++ c ++ ['\n'] ++ r) trimCutset) = [w, c])
      ∧ getRootCause (p ++ "Error:".toList ++ c ++ ['\n'] ++ r)
          = some (rootCauseOfSegment c) := by
  have hr2 : ∃ y ∈ r, inCutset trimCutset y = false := by
    obtain ⟨x, hx, hxc⟩ := hr
    exact ⟨x, hx, inCutset_eq_false hxc⟩
  have hE : inCutset trimCutset 'E' = false := by decide
  have e1 : p ++ "Error:".toList ++ c ++ ['\n'] ++ r
      = p ++ 'E' :: (("rror:".toList ++ c ++ ['\n']) ++ r) := by
    rw [errorLit_eq]
    have : "rror:".toList = ['r', 'r', 'o', 'r', ':'] := rfl
    rw [this]
    simp
  obtain ⟨ht, hne⟩ := Trim_sandwich trimCutset p ("rror:".toList ++ c ++ ['\n']) r 'E' hE hr2
  have e2 : TrimLeft p trimCutset ++ 'E' :: (("rror:".toList ++ c ++ ['\n']) ++ TrimRight r trimCutset)
      = TrimLeft p trimCutset ++ ("Error:".toList ++ (c ++ '\n' :: TrimRight r trimCutset)) := by
    rw [errorLit_eq]
    have : "rror:".toList = ['r', 'r', 'o', 'r', ':'] := rfl
    rw [this]
    simp
  have hsuf : TrimLeft p trimCutset <:+ p := List.dropWhile_suffix _
  have hq1 : '\r' ∉ TrimLeft p trimCutset := fun h => hp1 (hsuf.subset h)
  have hq2 : '\t' ∉ TrimLeft p trimCutset := fun h => hp2 (hsuf.subset h)
  have hq3 : ¬ "Error:".toList <:+: TrimLeft p trimCutset :=
    fun h => hp3 (h.trans hsuf.isInfix)
  have hf := find_errorLine (TrimLeft p trimCutset) c (TrimRight r trimCutset) hq1 hq2 hq3 hc
  rw [← e2, ← ht, ← e1] at hf
  exact ⟨⟨_, hf⟩, getRootCause_of_match _ _ _ hf⟩

/-! ## Auxiliary facts: replacement -/

theorem replaceScan_of_not_infix (old new s : Str) (h : ¬ old <:+: s) :
    replaceScan old new 0 s = s := by
  induction s with
  | nil => rfl
  | cons c t ih =>
    have h1 : old.isPrefixOf (c :: t) = false := by
      rw [← Bool.not_eq_true, List.isPrefixOf_iff_prefix]
      exact fun e => h e.isInfix
    have h2 : ¬ old <:+: t := fun e => h (List.infix_cons e)
    rw [replaceScan, h1, ih h2]
    rfl

theorem isPrefixOf_eq_false {a b : Str} (h : ¬ a <+: b) : a.isPrefixOf b = false := by
  rw [← Bool.not_eq_true, List.isPrefixOf_iff_prefix]
  exact h

/-- Where every occurrence of `lit` is followed by a comma, replacing `lit` and the
comma by nothing is the removal that the specification describes. -/
theorem replaceScan_comma_eq (lit : Str) (hl : lit ≠ []) (s : Str) (k : Nat)
    (hall : ∀ a b, s = a ++ (lit ++ b) → b.head? = some ',') :
    replaceScan (lit ++ [',']) [] k s = removeLiteralAndComma lit k s := by
  induction s generalizing k with
  | nil => cases k <;> rfl
  | cons c t ih =>
    have hall2 : ∀ a b, t = a ++ (lit ++ b) → b.head? = some ',' := by
      intro a b e
      exact hall (c :: a) b (by rw [e]; rfl)
    obtain ⟨n, hn⟩ : ∃ n, lit.length = n + 1 := by
      cases lit with
      | nil => exact absurd rfl hl
      | cons x l => exact ⟨l.length, rfl⟩
    cases k with
    | succ k => rw [replaceScan, removeLiteralAndComma]; exact ih k hall2
    | zero =>
      rw [replaceScan, removeLiteralAndComma]
      by_cases hp : lit ++ [','] <+: c :: t
      · obtain ⟨b, hb⟩ := hp
        have hb2 : c :: t = lit ++ (',' :: b) := by rw [← hb]; simp
        have h1 : lit.isPrefixOf (c :: t) = true :=
          List.isPrefixOf_iff_prefix.2 ⟨',' :: b, hb2.symm⟩
        have h2 : (lit ++ [',']).isPrefixOf (c :: t) = true :=
          List.isPrefixOf_iff_prefix.2 ⟨b, hb⟩
        have h3 : List.drop (lit.length - 1) t = ',' :: b := by
          have : List.drop lit.length (c :: t) = ',' :: b := by
            rw [hb2, List.drop_left]
          rw [hn] at this ⊢
          simpa using this
        rw [h1, h2, h3]
        simp only [List.head?_cons, if_true, List.nil_append, List.length_append,
          List.length_singleton, Nat.add_sub_cancel]
        exact ih _ hall2
      · have h2 : (lit ++ [',']).isPrefixOf (c :: t) = false := isPrefixOf_eq_false hp
        have h1 : lit.isPrefixOf (c :: t) = false := by
          apply isPrefixOf_eq_false
          rintro ⟨b, hb⟩
          have hh := hall [] b (by rw [List.nil_append, hb])
          cases b with
          | nil => simp at hh
          | cons y b =>
            simp only [List.head?_cons, Option.some.injEq] at hh
            subst hh
            exact hp ⟨b, by rw [← hb]; simp⟩
        rw [h1, h2]
        simp only [Bool.false_eq_true, if_false]
        rw [ih 0 hall2]

theorem httpRangeLiteralComma_eq : httpRangeLiteralComma = httpRangeLiteral ++ [','] := by
  decide

/-! ## The claims -/

/-- C1. Totality of `getRootCause`: on every input the match slice is empty or has
an element of index 1, so `errMessage[1]` never panics; a `RootCause` is returned
and its `issueType` is one of the four constants, which are pairwise distinct. -/
theorem getRootCause_total (failureMessage : Str) :
    ((FindStringSubmatch errMessageRegEx (Trim failureMessage trimCutset)).length = 0
        ∨ 1 < (FindStringSubmatch errMessageRegEx (Trim failureMessage trimCutset)).length)
      ∧ (∃ rc, getRootCause failureMessage = some rc
          ∧ rc.issueType ∈ [assertionIssue, scriptIssue, infraIssue, configOrDBIssue])
      ∧ [assertionIssue, scriptIssue, infraIssue, configOrDBIssue].Nodup := by
  refine ⟨?_, ?_, by decide⟩
  · rcases find_shape errMessageRegEx (Trim failureMessage trimCutset) with h | ⟨w, s, h⟩
    · left; rw [h]; rfl
    · right; rw [h]; simp
  · rcases find_shape errMessageRegEx (Trim failureMessage trimCutset) with h | ⟨w, s, h⟩
    · exact ⟨_, getRootCause_of_no_match _ h, by decide⟩
    · refine ⟨_, getRootCause_of_match _ w s h, ?_⟩
      rcases rootCauseOfSegment_issueType s with e | e | e <;> simp [e]

/-- C2. The fallback law fails on the code: the text `a`, carriage return, `b` and
the text `a`, tab, `b Test:` hold no `Error:`, and `getRootCause` answers
`assertionIssue` with an empty message, not `scriptIssue` with
`panic in execution`. -/
theorem getRootCause_bare_alternatives :
    Contains "a\rb".toList "Error:".toList = false
      ∧ getRootCause "a\rb".toList = some ⟨assertionIssue, []⟩
      ∧ Contains "a\tb Test:".toList "Error:".toList = false
      ∧ getRootCause "a\tb Test:".toList = some ⟨assertionIssue, []⟩
      ∧ (⟨assertionIssue, []⟩ : RootCause) ≠ ⟨scriptIssue, "panic in execution".toList⟩ := by
  decide

/-- C3. First-`Error:` extraction: when `p` has no carriage return, no tab and no
`Error:`, `c` has no newline and `r` has a character outside the trim set, the
segment captured on `p ++ "Error:" ++ c ++ "\n" ++ r` is `c`; the result is the same
for every other such pair `p2`, `r2`, and it is not the `scriptIssue` fallback. -/
theorem first_error_extraction (p r p2 r2 c : Str)
    (hp1 : '\r' ∉ p) (hp2 : '\t' ∉ p) (hp3 : ¬ "Error:".toList <:+: p)
    (hr : ∃ x ∈ r, x ∉ trimCutset)
    (hq1 : '\r' ∉ p2) (hq2 : '\t' ∉ p2) (hq3 : ¬ "Error:".toList <:+: p2)
    (hr2 : ∃ x ∈ r2, x ∉ trimCutset)
    (hc : '\n' ∉ c) :
    (FindStringSubmatch errMessageRegEx
        (Trim (p ++ "Error:".toList ++ c ++ ['\n'] ++ r) trimCutset)).get? 1 = some c
      ∧ getRootCause (p ++ "Error:".toList ++ c ++ ['\n'] ++ r)
          = getRootCause (p2 ++ "Error:".toList ++ c ++ ['\n'] ++ r2)
      ∧ ∃ rc, getRootCause (p ++ "Error:".toList ++ c ++ ['\n'] ++ r) = some rc
          ∧ rc.issueType ≠ scriptIssue := by
  obtain ⟨⟨w, hw⟩, h1⟩ := getRootCause_errorLine p c r hp1 hp2 hp3 hc hr
  obtain ⟨_, h2⟩ := getRootCause_errorLine p2 c r2 hq1 hq2 hq3 hc hr2
  refine ⟨by rw [hw]; rfl, by rw [h1, h2], _, h1, ?_⟩
  rcases rootCauseOfSegment_issueType c with e | e | e <;> rw [e] <;> decide

/-- Witness of C3: two texts around the same `Error:` line, the second one with a
later `Error:` in its tail. -/
theorem first_error_extraction_witness :
    (FindStringSubmatch errMessageRegEx
        (Trim ("  Trace: f.go:3\n".toList ++ "Error:".toList ++ " boom".toList ++ ['\n']
          ++ "Test: Test_A".toList) trimCutset)).get? 1 = some " boom".toList
      ∧ getRootCause ("  Trace: f.go:3\n".toList ++ "Error:".toList ++ " boom".toList ++ ['\n']
          ++ "Test: Test_A".toList)
          = getRootCause ([] ++ "Error:".toList ++ " boom".toList ++ ['\n']
              ++ "Error: other\n\tTest: Test_B".toList)
      ∧ ∃ rc, getRootCause ("  Trace: f.go:3\n".toList ++ "Error:".toList ++ " boom".toList
          ++ ['\n'] ++ "Test: Test_A".toList) = some rc ∧ rc.issueType ≠ scriptIssue :=
  first_error_extraction "  Trace: f.go:3\n".toList "Test: Test_A".toList []
    "Error: other\n\tTest: Test_B".toList " boom".toList
    (by decide) (by decide) (by decide) ⟨'T', by decide, by decide⟩
    (by decide) (by decide) (by decide) ⟨'E', by decide, by decide⟩ (by decide)

/-- C4. Infrastructure precedence: when the pattern matches and the captured
segment holds the HTTP-range literal, the issue type is `infraIssue`, whether or
not the segment also holds the `errorString` marker. -/
theorem infra_precedence (input w s : Str)
    (hm : FindStringSubmatch errMessageRegEx (Trim input trimCutset) = [w, s])
    (hs : httpRangeLiteral <:+: s) :
    ∃ rc, getRootCause input = some rc ∧ rc.issueType = infraIssue := by
  refine ⟨_, getRootCause_of_match input w s hm, ?_⟩
  have h1 : Contains s httpRangeLiteral = true := (Contains_iff _ _).2 hs
  simp [rootCauseOfSegment, h1]

/-- Witness of C4: a segment that holds both markers. -/
theorem infra_precedence_witness :
    errorStringMarker <:+: " ".toList ++ httpRangeLiteral ++ ", &errors.errorString\x7bs:x\x7d".toList
      ∧ ∃ rc, getRootCause ("Error: ".toList ++ httpRangeLiteral
            ++ ", &errors.errorString\x7bs:x\x7d\nTest: Test_A".toList) = some rc
          ∧ rc.issueType = infraIssue :=
  ⟨(Contains_iff _ _).1 (by decide),
    infra_precedence
      ("Error: ".toList ++ httpRangeLiteral ++ ", &errors.errorString\x7bs:x\x7d\nTest: Test_A".toList)
      ("Error: ".toList ++ httpRangeLiteral ++ ", &errors.errorString\x7bs:x\x7d\n".toList)
      (" ".toList ++ httpRangeLiteral ++ ", &errors.errorString\x7bs:x\x7d".toList)
      (by decide) ((Contains_iff _ _).1 (by decide))⟩

/-- C5. ConfigOrDB detection: when the pattern matches and the captured segment
holds the `errorString` marker and not the HTTP-range literal, the issue type is
`configOrDBIssue`. -/
theorem configOrDB_detection (input w s : Str)
    (hm : FindStringSubmatch errMessageRegEx (Trim input trimCutset) = [w, s])
    (hs : errorStringMarker <:+: s) (hn : ¬ httpRangeLiteral <:+: s) :
    ∃ rc, getRootCause input = some rc ∧ rc.issueType = configOrDBIssue := by
  refine ⟨_, getRootCause_of_match input w s hm, ?_⟩
  have h1 : Contains s errorStringMarker = true := (Contains_iff _ _).2 hs
  have h2 : Contains s httpRangeLiteral = false := by
    rw [← Bool.not_eq_true, Contains_iff]
    exact hn
  simp [rootCauseOfSegment, h1, h2]

/-- Witness of C5: the `errorString` line of the third worked example, followed by
a `Test:` line. -/
theorem configOrDB_detection_witness :
    ∃ rc, getRootCause "Error:  &errors.errorString\x7bs:\"connection refused\"\x7d\nTest: Test_A".toList
        = some rc ∧ rc.issueType = configOrDBIssue :=
  configOrDB_detection
    "Error:  &errors.errorString\x7bs:\"connection refused\"\x7d\nTest: Test_A".toList
    "Error:  &errors.errorString\x7bs:\"connection refused\"\x7d\n".toList
    "  &errors.errorString\x7bs:\"connection refused\"\x7d".toList
    (by decide) ((Contains_iff _ _).1 (by decide))
    (fun h => absurd ((Contains_iff _ _).2 h) (by decide))

/-- C6. Default assertion: when the pattern matches and the captured segment `s`
holds neither marker, the issue type is `assertionIssue` and the message is `s`
trimmed and then stripped of the quote artifact. -/
theorem default_assertion (input w s : Str)
    (hm : FindStringSubmatch errMessageRegEx (Trim input trimCutset) = [w, s])
    (h1 : ¬ httpRangeLiteral <:+: s) (h2 : ¬ errorStringMarker <:+: s) :
    getRootCause input
      = some ⟨assertionIssue, ReplaceAll (Trim s trimCutset) quoteArtifact []⟩ := by
  rw [getRootCause_of_match input w s hm]
  have e1 : Contains s httpRangeLiteral = false := by
    rw [← Bool.not_eq_true, Contains_iff]
    exact h1
  have e2 : Contains s errorStringMarker = false := by
    rw [← Bool.not_eq_true, Contains_iff]
    exact h2
  simp [rootCauseOfSegment, e1, e2]

/-- Witness of C6: the first worked example, whose result is `assertionIssue` with
the message `expected 5 got 3`. -/
theorem default_assertion_witness :
    getRootCause "Error: expected 5 got 3\nTest: Test_Foo".toList
        = some ⟨assertionIssue, ReplaceAll (Trim " expected 5 got 3".toList trimCutset)
            quoteArtifact []⟩
      ∧ ReplaceAll (Trim " expected 5 got 3".toList trimCutset) quoteArtifact []
        = "expected 5 got 3".toList :=
  ⟨default_assertion "Error: expected 5 got 3\nTest: Test_Foo".toList
      "Error: expected 5 got 3\n".toList " expected 5 got 3".toList (by decide)
      (fun h => absurd ((Contains_iff _ _).2 h) (by decide))
      (fun h => absurd ((Contains_iff _ _).2 h) (by decide)),
    by decide⟩

/-- Counterexample of C7: the literal followed by a space, not by a comma. The
code leaves the literal in the message; the removal that the claim describes
gives `upstream down`. -/
theorem infra_message_counterexample :
    FindStringSubmatch errMessageRegEx
        (Trim ("Error: ".toList ++ httpRangeLiteral ++ " upstream down\nTest: Test_A".toList)
          trimCutset)
        = ["Error: ".toList ++ httpRangeLiteral ++ " upstream down\n".toList,
            " ".toList ++ httpRangeLiteral ++ " upstream down".toList]
      ∧ Contains (" ".toList ++ httpRangeLiteral ++ " upstream down".toList) httpRangeLiteral
        = true
      ∧ getRootCause ("Error: ".toList ++ httpRangeLiteral
            ++ " upstream down\nTest: Test_A".toList)
        = some ⟨infraIssue, httpRangeLiteral ++ " upstream down".toList⟩
      ∧ ReplaceAll (Trim (removeLiteralAndComma httpRangeLiteral 0
            (" ".toList ++ httpRangeLiteral ++ " upstream down".toList)) trimCutset)
          quoteArtifact [] = "upstream down".toList
      ∧ httpRangeLiteral ++ " upstream down".toList ≠ "upstream down".toList := by
  decide

/-- C7, amended. Infrastructure message: when the pattern matches and the captured
segment `s` holds the HTTP-range literal, the message is the cleaned (trimmed, then
quote-stripped) form of `s` with every occurrence of the literal followed by a
comma removed, comma included. Where every occurrence of the literal in `s` is
followed by a comma this is the removal that the specification describes; where
no occurrence is followed by a comma nothing is removed. -/
theorem infra_message (input w s : Str)
    (hm : FindStringSubmatch errMessageRegEx (Trim input trimCutset) = [w, s])
    (hs : httpRangeLiteral <:+: s) :
    ∃ rc, getRootCause input = some rc
      ∧ rc.rootCauseMessage
          = ReplaceAll (Trim (ReplaceAll s (httpRangeLiteral ++ [',']) []) trimCutset)
              quoteArtifact []
      ∧ ((∀ n < s.length, httpRangeLiteral.isPrefixOf (s.drop n) = true →
            (s.drop (n + httpRangeLiteral.length)).head? = some ',') →
          rc.rootCauseMessage
            = ReplaceAll (Trim (removeLiteralAndComma httpRangeLiteral 0 s) trimCutset)
                quoteArtifact [])
      ∧ (¬ httpRangeLiteral ++ [','] <:+: s →
          rc.rootCauseMessage = ReplaceAll (Trim s trimCutset) quoteArtifact []) := by
  refine ⟨_, getRootCause_of_match input w s hm, ?_⟩
  have h1 : Contains s httpRangeLiteral = true := (Contains_iff _ _).2 hs
  have hne : httpRangeLiteral ≠ [] := by decide
  have hR : ReplaceAll s (httpRangeLiteral ++ [',']) []
      = replaceScan (httpRangeLiteral ++ [',']) [] 0 s := by
    simp [ReplaceAll]
  have e : (rootCauseOfSegment s).rootCauseMessage
      = ReplaceAll (Trim (ReplaceAll s (httpRangeLiteral ++ [',']) []) trimCutset)
          quoteArtifact [] := by
    simp [rootCauseOfSegment, h1, httpRangeLiteralComma_eq]
  refine ⟨e, ?_, ?_⟩
  · intro hall
    have hall2 : ∀ a b, s = a ++ (httpRangeLiteral ++ b) → b.head? = some ',' := by
      intro a b hab
      have hlen : a.length < s.length := by
        have hpos : 0 < httpRangeLiteral.length := List.length_pos.2 hne
        rw [hab, List.length_append, List.length_append]
        omega
      have hd1 : s.drop a.length = httpRangeLiteral ++ b := by
        rw [hab, List.drop_left]
      have hd2 : s.drop (a.length + httpRangeLiteral.length) = b := by
        have : s = (a ++ httpRangeLiteral) ++ b := by rw [hab]; simp
        rw [this, ← List.length_append, List.drop_left]
      have := hall a.length hlen (by
        rw [hd1, List.isPrefixOf_iff_prefix]
        exact List.prefix_append _ _)
      rw [hd2] at this
      exact this
    rw [e, hR, replaceScan_comma_eq httpRangeLiteral hne s 0 hall2]
  · intro hno
    rw [e, hR, replaceScan_of_not_infix _ _ _ hno]

/-- Witness of C7: the segment of the second worked example, where the literal is
followed by a comma; the message is `upstream down`. -/
theorem infra_message_witness :
    ∃ rc, getRootCause ("Error: ".toList ++ httpRangeLiteral
          ++ ", upstream down\nTest: Test_A".toList) = some rc
      ∧ rc.rootCauseMessage
          = ReplaceAll (Trim (removeLiteralAndComma httpRangeLiteral 0
              (" ".toList ++ httpRangeLiteral ++ ", upstream down".toList)) trimCutset)
              quoteArtifact []
      ∧ rc.rootCauseMessage = "upstream down".toList := by
  obtain ⟨rc, h1, _, h3, _⟩ := infra_message
    ("Error: ".toList ++ httpRangeLiteral ++ ", upstream down\nTest: Test_A".toList)
    ("Error: ".toList ++ httpRangeLiteral ++ ", upstream down\n".toList)
    (" ".toList ++ httpRangeLiteral ++ ", upstream down".toList)
    (by decide) ((Contains_iff _ _).1 (by decide))
  have h4 := h3 (by decide)
  refine ⟨rc, h1, h4, ?_⟩
  rw [h4]
  decide

/-- Counterexample of C8: the final newline of the second worked example is trimmed
before the pattern is applied, so there is no match. -/
theorem worked_example_infra_counterexample :
    getRootCause
        "Error: HTTP status code is not in the range 200~299, but the response is not nil, upstream down\n".toList
        = some ⟨scriptIssue, "panic in execution".toList⟩
      ∧ getRootCause
        "Error: HTTP status code is not in the range 200~299, but the response is not nil, upstream down\n".toList
        ≠ some ⟨infraIssue, "upstream down".toList⟩ := by
  decide

/-- C8, amended. Worked example 2: on the `Error:` line followed by a single newline
the result is `scriptIssue` with `panic in execution`; when the newline is followed
by a text `r` that has a character outside the trim set, the result is `infraIssue`
with the message `upstream down`. -/
theorem worked_example_infra (r : Str) (hr : ∃ x ∈ r, x ∉ trimCutset) :
    getRootCause
        ("Error: HTTP status code is not in the range 200~299, but the response is not nil, upstream down".toList
          ++ ['\n'])
        = some ⟨scriptIssue, "panic in execution".toList⟩
      ∧ getRootCause
        ("Error: HTTP status code is not in the range 200~299, but the response is not nil, upstream down".toList
          ++ ['\n'] ++ r)
        = some ⟨infraIssue, "upstream down".toList⟩ := by
  refine ⟨by decide, ?_⟩
  have e : "Error: HTTP status code is not in the range 200~299, but the response is not nil, upstream down".toList
      = [] ++ "Error:".toList
        ++ " HTTP status code is not in the range 200~299, but the response is not nil, upstream down".toList := by
    decide
  rw [e, (getRootCause_errorLine [] _ r (by simp) (by simp) (by decide) (by decide) hr).2]
  decide

/-- Witness of C8: the line of the example followed by a `Test:` line. -/
theorem worked_example_infra_witness :
    getRootCause
        ("Error: HTTP status code is not in the range 200~299, but the response is not nil, upstream down".toList
          ++ ['\n'])
        = some ⟨scriptIssue, "panic in execution".toList⟩
      ∧ getRootCause
        ("Error: HTTP status code is not in the range 200~299, but the response is not nil, upstream down".toList
          ++ ['\n'] ++ "Test: Test_Foo".toList)
        = some ⟨infraIssue, "upstream down".toList⟩ :=
  worked_example_infra "Test: Test_Foo".toList ⟨'T', by decide, by decide⟩

/-- Counterexample of C9: the final newline of the third worked example is trimmed
before the pattern is applied, so there is no match. -/
theorem worked_example_configOrDB_counterexample :
    getRootCause "Error:  &errors.errorString\x7bs:\"connection refused\"\x7d\n".toList
        = some ⟨scriptIssue, "panic in execution".toList⟩
      ∧ getRootCause "Error:  &errors.errorString\x7bs:\"connection refused\"\x7d\n".toList
        ≠ some ⟨configOrDBIssue, "connection refused".toList⟩ := by
  decide

/-- C9, amended. Worked example 3: on the `Error:` line followed by a single newline
the result is `scriptIssue` with `panic in execution`; when the newline is followed
by a text `r` that has a character outside the trim set, the result is
`configOrDBIssue` and the message is the trimmed segment without the three
characters `s:"`, that is `&errors.errorString{connection refused"}`. -/
theorem worked_example_configOrDB (r : Str) (hr : ∃ x ∈ r, x ∉ trimCutset) :
    getRootCause ("Error:  &errors.errorString\x7bs:\"connection refused\"\x7d".toList ++ ['\n'])
        = some ⟨scriptIssue, "panic in execution".toList⟩
      ∧ getRootCause
        ("Error:  &errors.errorString\x7bs:\"connection refused\"\x7d".toList ++ ['\n'] ++ r)
        = some ⟨configOrDBIssue, "&errors.errorString\x7bconnection refused\"\x7d".toList⟩ := by
  refine ⟨by decide, ?_⟩
  have e : "Error:  &errors.errorString\x7bs:\"connection refused\"\x7d".toList
      = [] ++ "Error:".toList
        ++ "  &errors.errorString\x7bs:\"connection refused\"\x7d".toList := by
    decide
  rw [e, (getRootCause_errorLine [] _ r (by simp) (by simp) (by decide) (by decide) hr).2]
  decide

/-- Witness of C9: the line of the example followed by a `Test:` line. -/
theorem worked_example_configOrDB_witness :
    getRootCause ("Error:  &errors.errorString\x7bs:\"connection refused\"\x7d".toList ++ ['\n'])
        = some ⟨scriptIssue, "panic in execution".toList⟩
      ∧ getRootCause
        ("Error:  &errors.errorString\x7bs:\"connection refused\"\x7d".toList ++ ['\n']
          ++ "Test: Test_Foo".toList)
        = some ⟨configOrDBIssue, "&errors.errorString\x7bconnection refused\"\x7d".toList⟩ :=
  worked_example_configOrDB "Test: Test_Foo".toList ⟨'T', by decide, by decide⟩

/-- C10. Empty or whitespace-only input: a text made only of tab, LF, VT, FF, CR
and space is trimmed to the empty text, the pattern does not match, and the result
is `scriptIssue` with `panic in execution`. -/
theorem whitespace_only_fallback (failureMessage : Str)
    (h : ∀ x ∈ failureMessage, x ∈ trimCutset) :
    getRootCause failureMessage = some ⟨scriptIssue, "panic in execution".toList⟩ := by
  have ht : Trim failureMessage trimCutset = [] :=
    Trim_of_all_cut trimCutset failureMessage (fun x hx => inCutset_eq_true (h x hx))
  apply getRootCause_of_no_match
  rw [ht]
  exact find_nil

/-- Witness of C10: the empty text and a text of all six trim characters. -/
theorem whitespace_only_fallback_witness :
    getRootCause [] = some ⟨scriptIssue, "panic in execution".toList⟩
      ∧ getRootCause [' ', '\t', '\n', Char.ofNat 11, Char.ofNat 12, '\r', ' ']
        = some ⟨scriptIssue, "panic in execution".toList⟩ :=
  ⟨whitespace_only_fallback [] (by simp),
    whitespace_only_fallback [' ', '\t', '\n', Char.ofNat 11, Char.ofNat 12, '\r', ' ']
      (by decide)⟩

/-! ## Auxiliary facts: the shape of every match -/

theorem starLoop_cap (step : Str → Option Str → List Thread) (greedy : Bool)
    (hstep : ∀ s cap th, th ∈ step s cap → th.2 = cap) (fuel : Nat) (th th2 : Thread)
    (h : th2 ∈ starLoop step greedy fuel th) : th2.2 = th.2 := by
  induction fuel generalizing th th2 with
  | zero =>
    simp only [starLoop, List.mem_singleton] at h
    rw [h]
  | succ n ih =>
    have hmore : ∀ x, x ∈ ((step th.1 th.2).filter
        (fun t2 => t2.1.length < th.1.length)).flatMap (starLoop step greedy n) →
        x.2 = th.2 := by
      intro x hx
      obtain ⟨y, hy, hxy⟩ := List.mem_flatMap.1 hx
      rw [ih y x hxy]
      exact hstep _ _ _ (List.mem_filter.1 hy).1
    rw [starLoop] at h
    cases greedy with
    | true =>
      simp only [if_true] at h
      rcases List.mem_append.1 h with h1 | h1
      · exact hmore _ h1
      · rw [List.mem_singleton.1 h1]
    | false =>
      simp only [Bool.false_eq_true, if_false] at h
      rcases List.mem_cons.1 h with h1 | h1
      · rw [h1]
      · exact hmore _ h1

/-- A pattern without a group leaves the text of group 1 as it was. -/
theorem run_captureFree (re : Regex) (hre : re.captureFree = true) (s : Str)
    (cap : Option Str) (th : Thread) (h : th ∈ re.run s cap) : th.2 = cap := by
  induction re generalizing s cap th with
  | literal runes =>
    rw [Regex.run] at h
    split_ifs at h
    · rw [List.mem_singleton.1 h]
    · simp at h
  | anyCharNotNL =>
    cases s with
    | nil => simp [Regex.run] at h
    | cons c t =>
      rw [Regex.run] at h
      split_ifs at h
      · simp at h
      · rw [List.mem_singleton.1 h]
  | concat a b iha ihb =>
    simp only [Regex.captureFree, Bool.and_eq_true] at hre
    rw [Regex.run] at h
    obtain ⟨y, hy, hxy⟩ := List.mem_flatMap.1 h
    rw [ihb hre.2 _ _ _ hxy, iha hre.1 _ _ _ hy]
  | alternate a b iha ihb =>
    simp only [Regex.captureFree, Bool.and_eq_true] at hre
    rw [Regex.run] at h
    rcases List.mem_append.1 h with h1 | h1
    · exact iha hre.1 _ _ _ h1
    · exact ihb hre.2 _ _ _ h1
  | capture a _ => simp [Regex.captureFree] at hre
  | star greedy a iha =>
    simp only [Regex.captureFree] at hre
    rw [Regex.run] at h
    exact starLoop_cap _ greedy (fun s2 cap2 t2 ht => iha hre s2 cap2 t2 ht) _ _ _ h
  | plus greedy a iha =>
    simp only [Regex.captureFree] at hre
    rw [Regex.run] at h
    obtain ⟨y, hy, hxy⟩ := List.mem_flatMap.1 h
    rw [starLoop_cap _ greedy (fun s2 cap2 t2 ht => iha hre s2 cap2 t2 ht) _ _ _ hxy,
      iha hre _ _ _ hy]

theorem altError_run_cases (s : Str) (cap : Option Str) :
    altError.run s cap = []
      ∨ ∃ c r, s = "Error:".toList ++ (c ++ '\n' :: r) ∧ '\n' ∉ c
          ∧ altError.run s cap = [(r, some c)] := by
  by_cases hp : "Error:".toList <+: s
  · obtain ⟨t, ht⟩ := hp
    subst ht
    by_cases hn : '\n' ∈ t
    · obtain ⟨c, r, e, hc⟩ := List.eq_append_cons_of_mem hn
      subst e
      exact Or.inr ⟨c, r, rfl, hc, altError_run_line c r cap hc⟩
    · exact Or.inl (altError_run_no_newline t cap hn)
  · exact Or.inl (altError_run_no_marker s cap hp)

/-- The two shapes of a match at the start of a text: the `Error:` line with its
segment as group 1, or one of the alternatives without a group. -/
theorem matchAt_cases (s w : Str) (cap : Option Str)
    (h : errMessageRegEx.matchAt s = some (w, cap)) :
    (∃ c r, s = "Error:".toList ++ (c ++ '\n' :: r) ∧ '\n' ∉ c
        ∧ w = "Error:".toList ++ (c ++ ['\n']) ∧ cap = some c)
      ∨ (cap = none ∧ w <+: s) := by
  have hfree : (Regex.alternate altCR altTabTest).captureFree = true := by decide
  rcases altError_run_cases s none with h0 | ⟨c, r, hs, hc, hrun⟩
  · right
    rw [Regex.matchAt, errMessageRegEx_eq, Regex.run, h0, List.nil_append] at h
    cases hh : ((Regex.alternate altCR altTabTest).run s none).head? with
    | none => rw [hh] at h; simp at h
    | some th =>
      rw [hh] at h
      simp only [Option.some.injEq, Prod.mk.injEq] at h
      have hcap := run_captureFree _ hfree s none th (List.mem_of_mem_head? hh)
      exact ⟨by rw [← h.2, hcap], by rw [← h.1]; exact List.take_prefix _ _⟩
  · left
    refine ⟨c, r, hs, hc, ?_⟩
    have h2 := matchAt_errorLine c r hc
    rw [← hs, h] at h2
    simp only [Option.some.injEq, Prod.mk.injEq] at h2
    exact h2

/-- A match of the search is a match at the start of some suffix of the text. -/
theorem search_cases (s w : Str) (cap : Option Str)
    (h : errMessageRegEx.search s = some (w, cap)) :
    ∃ a b, s = a ++ b ∧ errMessageRegEx.matchAt b = some (w, cap) := by
  induction s with
  | nil => exact ⟨[], [], rfl, by simpa [Regex.search] using h⟩
  | cons x t ih =>
    rw [Regex.search] at h
    cases hm : errMessageRegEx.matchAt (x :: t) with
    | some m =>
      rw [hm] at h
      simp only [Option.some.injEq] at h
      exact ⟨[], x :: t, rfl, by rw [hm, h]⟩
    | none =>
      rw [hm] at h
      obtain ⟨a, b, e, hb⟩ := ih h
      exact ⟨x :: a, b, by rw [e]; rfl, hb⟩

/-- The two shapes of the slice that `FindStringSubmatch` returns on a match. -/
theorem find_cases (t w s : Str)
    (h : FindStringSubmatch errMessageRegEx t = [w, s]) :
    (∃ a c r, t = a ++ ("Error:".toList ++ (c ++ '\n' :: r)) ∧ '\n' ∉ c
        ∧ w = "Error:".toList ++ (c ++ ['\n']) ∧ s = c)
      ∨ (s = [] ∧ ¬ "Error:".toList <+: w) := by
  unfold FindStringSubmatch at h
  cases hs : errMessageRegEx.search t with
  | none => rw [hs] at h; simp at h
  | some m =>
    obtain ⟨w2, cap⟩ := m
    rw [hs] at h
    simp only [List.cons.injEq, and_true] at h
    obtain ⟨hw, hcap⟩ := h
    subst hw
    obtain ⟨a, b, e, hb⟩ := search_cases t w2 cap hs
    rcases matchAt_cases b w2 cap hb with ⟨c, r, hb2, hc, hw, hcap2⟩ | ⟨hnone, hpre⟩
    · left
      refine ⟨a, c, r, by rw [e, hb2], hc, hw, ?_⟩
      rw [← hcap, hcap2]
      rfl
    · right
      refine ⟨by rw [← hcap, hnone]; rfl, ?_⟩
      intro hE
      have hEb : "Error:".toList <+: b := hE.trans hpre
      obtain ⟨t2, ht2⟩ := hEb
      rw [errorLit_eq] at ht2
      have hx : ('E' : Char) ≠ '\r' := by decide
      have hx2 : ('E' : Char) ≠ '\t' := by decide
      rcases altError_run_cases b none with h0 | ⟨c, r, hs2, hc, hrun⟩
      · rw [Regex.matchAt, errMessageRegEx_eq, Regex.run, h0, List.nil_append, Regex.run,
          ← ht2] at hb
        simp only [List.cons_append] at hb
        rw [altCR_run_cons _ _ _ hx, altTabTest_run_cons _ _ _ hx2] at hb
        simp at hb
      · have h2 := matchAt_errorLine c r hc
        rw [← hs2, hb] at h2
        simp only [Option.some.injEq, Prod.mk.injEq] at h2
        rw [hnone] at h2
        simp at h2

theorem trimmedMessage_of_match (input w s : Str)
    (h : FindStringSubmatch errMessageRegEx (Trim input trimCutset) = [w, s]) :
    trimmedMessage input
      = Trim (if Contains s httpRangeLiteral then ReplaceAll s httpRangeLiteralComma [] else s)
          trimCutset := by
  unfold trimmedMessage
  rw [h]

/-! ## Auxiliary facts: more on trimming and replacement -/

theorem dropWhile_append_all (f : Char → Bool) (a l : Str) (ha : ∀ x ∈ a, f x = true) :
    (a ++ l).dropWhile f = l.dropWhile f := by
  induction a with
  | nil => rfl
  | cons x a ih =>
    have hx : f x = true := ha x (by simp)
    rw [List.cons_append, List.dropWhile_cons, if_pos hx]
    exact ih (fun y hy => ha y (by simp [hy]))

theorem TrimRight_append_all (cutset l b : Str) (hb : ∀ x ∈ b, inCutset cutset x = true) :
    TrimRight (l ++ b) cutset = TrimRight l cutset := by
  unfold TrimRight
  rw [List.reverse_append, dropWhile_append_all _ _ _ (fun x hx => hb x (List.mem_reverse.1 hx))]

/-- Trimming does not see cutset characters added around the text. -/
theorem Trim_surround (cutset w1 x w2 : Str) (h1 : ∀ c ∈ w1, inCutset cutset c = true)
    (h2 : ∀ c ∈ w2, inCutset cutset c = true) :
    Trim (w1 ++ x ++ w2) cutset = Trim x cutset := by
  rw [Trim, TrimRight_append_all _ _ _ h2]
  by_cases hx : ∃ y ∈ x, inCutset cutset y = false
  · rw [(TrimRight_append cutset w1 x hx).1, TrimLeft, dropWhile_append_all _ _ _ h1]
    rfl
  · have hall : ∀ y ∈ x, inCutset cutset y = true := by
      intro y hy
      by_contra hc
      exact hx ⟨y, hy, by simpa using hc⟩
    have e1 := Trim_of_all_cut cutset (w1 ++ x) (by
      intro y hy
      rcases List.mem_append.1 hy with h | h
      · exact h1 y h
      · exact hall y h)
    have e2 := Trim_of_all_cut cutset x hall
    rw [Trim] at e1
    rw [e1, e2]

theorem mem_of_mem_Trim (cutset s : Str) (x : Char) (h : x ∈ Trim s cutset) : x ∈ s := by
  unfold Trim TrimLeft at h
  have h1 : x ∈ TrimRight s cutset := (List.dropWhile_sublist _).subset h
  rw [TrimRight_eq_rdropWhile] at h1
  exact (List.rdropWhile_prefix _ _).subset h1

theorem mem_of_mem_replaceScan (old s : Str) (k : Nat) (x : Char)
    (h : x ∈ replaceScan old [] k s) : x ∈ s := by
  induction s generalizing k with
  | nil => simp [replaceScan] at h
  | cons c t ih =>
    cases k with
    | succ k =>
      rw [replaceScan] at h
      exact List.mem_cons_of_mem _ (ih k h)
    | zero =>
      rw [replaceScan] at h
      split_ifs at h
      · rw [List.nil_append] at h
        exact List.mem_cons_of_mem _ (ih _ h)
      · rcases List.mem_cons.1 h with h1 | h1
        · rw [h1]; exact List.mem_cons_self _ _
        · exact List.mem_cons_of_mem _ (ih _ h1)

theorem mem_of_mem_ReplaceAll (s old : Str) (hold : old ≠ []) (x : Char)
    (h : x ∈ ReplaceAll s old []) : x ∈ s := by
  unfold ReplaceAll at h
  have : old.isEmpty = false := by
    cases old with
    | nil => exact absurd rfl hold
    | cons a l => rfl
  rw [this] at h
  exact mem_of_mem_replaceScan old s 0 x h

/-- The message that `getRootCause` builds holds only characters of the segment. -/
theorem mem_rootCauseOfSegment (s : Str) (x : Char)
    (h : x ∈ (rootCauseOfSegment s).rootCauseMessage) : x ∈ s := by
  have hq : quoteArtifact ≠ [] := by decide
  have hl : httpRangeLiteralComma ≠ [] := by decide
  unfold rootCauseOfSegment at h
  split_ifs at h
  · exact mem_of_mem_ReplaceAll _ _ hl x
      (mem_of_mem_Trim _ _ x (mem_of_mem_ReplaceAll _ _ hq x h))
  · exact mem_of_mem_Trim _ _ x (mem_of_mem_ReplaceAll _ _ hq x h)
  · exact mem_of_mem_Trim _ _ x (mem_of_mem_ReplaceAll _ _ hq x h)

/-! ## Auxiliary facts: a carriage return in front of the first `Error:` -/

theorem error_prefix_not_before_cr (q r : Str) (h : ¬ "Error:".toList <:+: q) :
    ¬ "Error:".toList <+: q ++ '\r' :: r := by
  intro hp
  rcases List.prefix_or_prefix_of_prefix hp (List.prefix_append q ('\r' :: r)) with h1 | h1
  · exact h h1.isInfix
  · obtain ⟨t, ht⟩ := h1
    rw [← ht, List.prefix_append_right_inj] at hp
    cases t with
    | nil =>
      rw [List.append_nil] at ht
      exact h (by rw [ht])
    | cons y t =>
      have hy : y = '\r' := (List.cons_prefix_cons.1 hp).1
      have hmem : '\r' ∈ "Error:".toList := by
        rw [← ht, ← hy]
        simp
      exact absurd hmem (by decide)

theorem matchAt_cr (r : Str) : errMessageRegEx.matchAt ('\r' :: r) = some (['\r'], none) := by
  have h1 : altError.run ('\r' :: r) none = [] :=
    altError_run_no_marker _ _ (by
      rw [errorLit_eq, List.cons_prefix_cons]
      exact fun h => absurd h.1 (by decide))
  have h2 : altCR.run ('\r' :: r) none = [(r, none)] := by simp [altCR, Regex.run]
  rw [Regex.matchAt, errMessageRegEx_eq, Regex.run, Regex.run, h1, h2]
  simp

theorem search_cr (p r : Str) (hp1 : '\r' ∉ p) (hp2 : '\t' ∉ p)
    (hp3 : ¬ "Error:".toList <:+: p) :
    errMessageRegEx.search (p ++ '\r' :: r) = some (['\r'], none) := by
  induction p with
  | nil => rw [List.nil_append, Regex.search, matchAt_cr]
  | cons x p ih =>
    have hx1 : x ≠ '\r' := fun e => hp1 (by simp [e])
    have hx2 : x ≠ '\t' := fun e => hp2 (by simp [e])
    have hq1 : '\r' ∉ p := fun e => hp1 (by simp [e])
    have hq2 : '\t' ∉ p := fun e => hp2 (by simp [e])
    have hq3 : ¬ "Error:".toList <:+: p := fun e => hp3 (List.infix_cons e)
    have hns := error_prefix_not_before_cr (x :: p) r hp3
    rw [List.cons_append] at hns ⊢
    rw [Regex.search, matchAt_none_of_cons x _ hx1 hx2 hns]
    exact ih hq1 hq2 hq3

/-! ## The claims, continued -/

/-- Counterexample of C11: in the layout `Error:`, tab, text, the captured segment
starts with the tab and runs to the newline, whereas the text up to the next
newline, carriage return or tab is empty. -/
theorem capture_terminators_counterexample :
    FindStringSubmatch errMessageRegEx
        (Trim "\tError:\tNot equal\n\tTest:\tTest_A".toList trimCutset)
        = ["Error:\tNot equal\n".toList, "\tNot equal".toList]
      ∧ '\t' ∈ "\tNot equal".toList
      ∧ upToTerminator "\tNot equal\n\tTest:\tTest_A".toList = []
      ∧ "\tNot equal".toList ≠ upToTerminator "\tNot equal\n\tTest:\tTest_A".toList := by
  decide

/-- C11, amended. Capture terminators: when the match starts at an `Error:` marker,
the captured segment has no newline; and when it has no carriage return and no
`Test:`, it is the text after the marker up to, and not including, the next
newline: the trimmed text is `a ++ "Error:" ++ s ++ "\n" ++ b` and the match is
`"Error:" ++ s ++ "\n"`. A tab does not end the segment. -/
theorem capture_terminators (input w s : Str)
    (hm : FindStringSubmatch errMessageRegEx (Trim input trimCutset) = [w, s])
    (hE : "Error:".toList <+: w) :
    '\n' ∉ s
      ∧ ('\r' ∉ s → ¬ "Test:".toList <:+: s →
          w = "Error:".toList ++ s ++ ['\n']
            ∧ ∃ a b, Trim input trimCutset = a ++ "Error:".toList ++ s ++ '\n' :: b) := by
  rcases find_cases _ w s hm with ⟨a, c, r, ht, hc, hw, hs⟩ | ⟨_, hno⟩
  · subst hs
    refine ⟨hc, fun _ _ => ⟨by rw [hw]; simp, a, r, by rw [ht]; simp⟩⟩
  · exact absurd hE hno

/-- Witness of C11: the segment of the counterexample, with its tab. -/
theorem capture_terminators_witness :
    '\n' ∉ "\tNot equal".toList
      ∧ "Error:\tNot equal\n".toList = "Error:".toList ++ "\tNot equal".toList ++ ['\n']
      ∧ ∃ a b, Trim "\tError:\tNot equal\n\tTest:\tTest_A".toList trimCutset
          = a ++ "Error:".toList ++ "\tNot equal".toList ++ '\n' :: b :=
  have h := capture_terminators "\tError:\tNot equal\n\tTest:\tTest_A".toList
    "Error:\tNot equal\n".toList "\tNot equal".toList (by decide)
    (List.isPrefixOf_iff_prefix.1 (by decide))
  ⟨h.1, h.2 (by decide) (by decide)⟩

/-- C14. Invariance under surrounding whitespace: trim characters added in front of
and behind a text do not change the result of `getRootCause`. -/
theorem surrounding_whitespace (x w1 w2 : Str)
    (h1 : ∀ c ∈ w1, c ∈ trimCutset) (h2 : ∀ c ∈ w2, c ∈ trimCutset) :
    getRootCause (w1 ++ x ++ w2) = getRootCause x := by
  have e : Trim (w1 ++ x ++ w2) trimCutset = Trim x trimCutset :=
    Trim_surround trimCutset w1 x w2 (fun c hc => inCutset_eq_true (h1 c hc))
      (fun c hc => inCutset_eq_true (h2 c hc))
  unfold getRootCause
  rw [e]

/-- Witness of C14: the first worked example between a line feed with a tab and a
carriage return with a space. -/
theorem surrounding_whitespace_witness :
    getRootCause ("\n\t".toList ++ "Error: expected 5 got 3\nTest: Test_Foo".toList
        ++ "\r ".toList)
      = getRootCause "Error: expected 5 got 3\nTest: Test_Foo".toList :=
  surrounding_whitespace "Error: expected 5 got 3\nTest: Test_Foo".toList "\n\t".toList
    "\r ".toList (by decide) (by decide)

/-- C17. Carriage return ahead of the error line: when `p` has no carriage return,
no tab and no `Error:`, and trimming leaves `p ++ "\r" ++ r` unchanged, the result
is `assertionIssue` with the empty message, whatever `r` holds. -/
theorem carriage_return_first (p r : Str)
    (hp1 : '\r' ∉ p) (hp2 : '\t' ∉ p) (hp3 : ¬ "Error:".toList <:+: p)
    (ht : Trim (p ++ ['\r'] ++ r) trimCutset = p ++ ['\r'] ++ r) :
    getRootCause (p ++ ['\r'] ++ r) = some ⟨assertionIssue, []⟩ := by
  have hf : FindStringSubmatch errMessageRegEx (Trim (p ++ ['\r'] ++ r) trimCutset)
      = [['\r'], []] := by
    rw [ht, FindStringSubmatch]
    have e : p ++ ['\r'] ++ r = p ++ '\r' :: r := by simp
    rw [e, search_cr p r hp1 hp2 hp3]
    rfl
  rw [getRootCause_of_match _ _ _ hf]
  decide

/-- Witness of C17: a panic line, a carriage return, and then a complete `Error:`
line that the match never reaches. -/
theorem carriage_return_first_witness :
    getRootCause ("panic: boom".toList ++ ['\r'] ++ "Error: x\nTest: Test_A".toList)
      = some ⟨assertionIssue, []⟩ :=
  carriage_return_first "panic: boom".toList "Error: x\nTest: Test_A".toList
    (by decide) (by decide) (by decide) (by decide)

/-- C18. Single-line message: the message that `getRootCause` returns holds no
newline character. -/
theorem single_line_message (failureMessage : Str) :
    ∃ rc, getRootCause failureMessage = some rc ∧ '\n' ∉ rc.rootCauseMessage := by
  rcases find_shape errMessageRegEx (Trim failureMessage trimCutset) with h | ⟨w, s, h⟩
  · exact ⟨_, getRootCause_of_no_match _ h, by decide⟩
  · refine ⟨_, getRootCause_of_match _ w s h, fun hmem => ?_⟩
    have hs : '\n' ∈ s := mem_rootCauseOfSegment s _ hmem
    rcases find_cases _ w s h with ⟨a, c, r, _, hc, _, hsc⟩ | ⟨hnil, _⟩
    · exact hc (hsc ▸ hs)
    · rw [hnil] at hs
      simp at hs

/-- C19. Display names: `Issue.String` does not index out of range on the issue
type that `getRootCause` returns, and it maps the four constants to the labels
`Assertion`, `Script`, `Infrastructure`, `Config Or DB`, which are pairwise
distinct. -/
theorem display_names (failureMessage : Str) :
    (∃ rc label, getRootCause failureMessage = some rc
        ∧ Issue.String rc.issueType = some label)
      ∧ Issue.String assertionIssue = some "Assertion".toList
      ∧ Issue.String scriptIssue = some "Script".toList
      ∧ Issue.String infraIssue = some "Infrastructure".toList
      ∧ Issue.String configOrDBIssue = some "Config Or DB".toList
      ∧ ["Assertion".toList, "Script".toList, "Infrastructure".toList,
          "Config Or DB".toList].Nodup := by
  refine ⟨?_, by decide, by decide, by decide, by decide, by decide⟩
  rcases find_shape errMessageRegEx (Trim failureMessage trimCutset) with h | ⟨w, s, h⟩
  · exact ⟨_, "Script".toList, getRootCause_of_no_match _ h, by decide⟩
  · rcases rootCauseOfSegment_issueType s with e | e | e
    · exact ⟨_, "Assertion".toList, getRootCause_of_match _ w s h, by rw [e]; decide⟩
    · exact ⟨_, "Infrastructure".toList, getRootCause_of_match _ w s h, by rw [e]; decide⟩
    · exact ⟨_, "Config Or DB".toList, getRootCause_of_match _ w s h, by rw [e]; decide⟩

/-! ## Auxiliary facts: the loops of the command -/

theorem getRootCause_some (failureMessage : Str) :
    ∃ rc, getRootCause failureMessage = some rc := by
  rcases find_shape errMessageRegEx (Trim failureMessage trimCutset) with h | ⟨w, s, h⟩
  · exact ⟨_, getRootCause_of_no_match _ h⟩
  · exact ⟨_, getRootCause_of_match _ w s h⟩

theorem appendTestcases_spec (suite : TestSuite) (hs : suite.Failures ≠ "0".toList)
    (cases : List Testcase) (acc : List TestResult) :
    ∃ l, appendTestcases cases acc = some (acc ++ l)
      ∧ l.map (fun r => (r.testCaseName, some r.rootCause))
        = ((cases.map (fun testCase => (suite, testCase))).filter isSelected).map
            (fun e => (e.2.Name, getRootCause e.2.Failure.Text)) := by
  induction cases generalizing acc with
  | nil => exact ⟨[], by simp [appendTestcases], rfl⟩
  | cons tc rest ih =>
    by_cases hsel : tc.Failure.Message ≠ [] ∧ Contains tc.Name "Test_".toList = true
    · obtain ⟨rc, hrc⟩ := getRootCause_some tc.Failure.Text
      obtain ⟨l, hl, hmap⟩ := ih (acc ++ [⟨tc.Name, rc⟩])
      refine ⟨⟨tc.Name, rc⟩ :: l, ?_, ?_⟩
      · rw [appendTestcases, if_pos hsel, hrc]
        simp only
        rw [hl]
        simp
      · have hi : isSelected (suite, tc) = true := by
          unfold isSelected
          simp only [Bool.and_eq_true, decide_eq_true_eq]
          exact ⟨⟨hs, hsel.1⟩, hsel.2⟩
        simp only [List.map_cons, List.filter_cons, hi, if_true]
        rw [hmap, hrc]
    · obtain ⟨l, hl, hmap⟩ := ih acc
      refine ⟨l, ?_, ?_⟩
      · rw [appendTestcases, if_neg hsel, hl]
      · have hi : isSelected (suite, tc) = false := by
          rw [← Bool.not_eq_true]
          intro h
          simp only [isSelected, Bool.and_eq_true, decide_eq_true_eq] at h
          exact hsel ⟨h.1.2, h.2⟩
        simp only [List.map_cons, List.filter_cons, hi, Bool.false_eq_true, if_false]
        rw [hmap]

theorem filter_isSelected_of_zero (suite : TestSuite) (hs : suite.Failures = "0".toList)
    (cases : List Testcase) :
    (cases.map (fun testCase => (suite, testCase))).filter isSelected = [] := by
  rw [List.filter_eq_nil_iff]
  intro e he
  obtain ⟨tc, _, rfl⟩ := List.mem_map.1 he
  unfold isSelected
  simp only [hs, ne_eq, not_true_eq_false, decide_False, Bool.false_and, Bool.false_eq_true,
    not_false_eq_true]

theorem appendSuites_spec (suites : List TestSuite) (acc : List TestResult) :
    ∃ l, appendSuites suites acc = some (acc ++ l)
      ∧ l.map (fun r => (r.testCaseName, some r.rootCause))
        = ((documentOrder suites).filter isSelected).map
            (fun e => (e.2.Name, getRootCause e.2.Failure.Text)) := by
  induction suites generalizing acc with
  | nil => exact ⟨[], by simp [appendSuites], rfl⟩
  | cons suite rest ih =>
    have hdoc : documentOrder (suite :: rest)
        = suite.Testcase.map (fun testCase => (suite, testCase)) ++ documentOrder rest := by
      simp [documentOrder]
    by_cases hs : suite.Failures ≠ "0".toList
    · obtain ⟨l1, hl1, hmap1⟩ := appendTestcases_spec suite hs suite.Testcase acc
      obtain ⟨l2, hl2, hmap2⟩ := ih (acc ++ l1)
      refine ⟨l1 ++ l2, ?_, ?_⟩
      · rw [appendSuites, if_pos hs, hl1]
        simp only
        rw [hl2, List.append_assoc]
      · rw [hdoc, List.filter_append, List.map_append, List.map_append, hmap1, hmap2]
    · have hs2 : suite.Failures = "0".toList := by
        by_contra h
        exact hs h
      obtain ⟨l2, hl2, hmap2⟩ := ih acc
      refine ⟨l2, ?_, ?_⟩
      · rw [appendSuites, if_neg hs, hl2]
      · rw [hdoc, List.filter_append, filter_isSelected_of_zero suite hs2, List.nil_append,
          hmap2]

/-! ## The claims on the command -/

/-- Counterexample of C15: the test case of `reportWithoutMessage` has a failure
text, a name with `Test_` and a suite that reports one failure, and the command
builds no entry for it, because the `message` attribute of its failure is empty. -/
theorem selection_counterexample :
    appendSuites reportWithoutMessage.TestSuite [] = some []
      ∧ (documentOrder reportWithoutMessage.TestSuite).map
          (fun e => (e.1.Failures, e.2.Name, hasNonEmptyFailureSection e.2,
            Contains e.2.Name "Test_".toList))
        = [("1".toList, "Test_A".toList, true, true)] := by
  decide

/-- C15, amended. Selection of test cases: the results that the command builds
are, in document order, one entry (name, `getRootCause` of the failure text) for
each test case whose failure has a non-empty `message` attribute, whose name holds
`Test_` and whose suite has a `failures` attribute other than `0`; there is no
other entry, and the loop does not panic. -/
theorem selection_of_test_cases (report : TestSuites) :
    ∃ testResults, appendSuites report.TestSuite [] = some testResults
      ∧ testResults.map (fun r => (r.testCaseName, some r.rootCause))
        = ((documentOrder report.TestSuite).filter isSelected).map
            (fun e => (e.2.Name, getRootCause e.2.Failure.Text)) := by
  obtain ⟨l, hl, hmap⟩ := appendSuites_spec report.TestSuite []
  exact ⟨l, by rw [hl, List.nil_append], hmap⟩

/-- C16. The load failure on the code: when `os.Open` fails, or when `xml.Unmarshal`
fails, the command prints the error and then panics, because it goes on to read
`testSuites.TestSuite` through the `nil` pointer. -/
theorem load_failure_panics (err bytes : Str) (unmarshal : Str → Except Str TestSuites) :
    Run (ReadJunitXml (.error err) unmarshal) = ⟨[.loadError err], true⟩
      ∧ Run (ReadJunitXml (.ok bytes) (fun _ => .error err)) = ⟨[.loadError err], true⟩ :=
  ⟨rfl, rfl⟩

/-! ## Auxiliary facts: the first and the last character that a replacement keeps -/

theorem prefix_cons_drop (old : Str) (hold : old ≠ []) (c : Char) (t : Str)
    (h : old <+: c :: t) : c :: t = old ++ t.drop (old.length - 1) := by
  obtain ⟨r, hr⟩ := h
  obtain ⟨n, hn⟩ : ∃ n, old.length = n + 1 := by
    cases old with
    | nil => exact absurd rfl hold
    | cons x l => exact ⟨l.length, rfl⟩
  have h1 : List.drop old.length (c :: t) = r := by rw [← hr, List.drop_left]
  rw [hn, List.drop_succ_cons] at h1
  rw [hn, Nat.add_sub_cancel, h1, hr]

/-- The first character kept by the scan follows the skipped characters and a run
of occurrences of `old`. -/
theorem replaceScan_head (old : Str) (hold : old ≠ []) (t : Str) (k : Nat) (x : Char) (o : Str)
    (h : replaceScan old [] k t = x :: o) :
    ∃ j b, t.drop k = (List.replicate j old).flatten ++ x :: b
      ∧ ¬ old <+: x :: b ∧ o = replaceScan old [] 0 b := by
  induction t generalizing k with
  | nil => cases k <;> simp [replaceScan] at h
  | cons c t ih =>
    cases k with
    | succ k =>
      rw [replaceScan] at h
      obtain ⟨j, b, hd, hnp, ho⟩ := ih k h
      exact ⟨j, b, by rw [List.drop_succ_cons]; exact hd, hnp, ho⟩
    | zero =>
      rw [replaceScan] at h
      by_cases hp : old.isPrefixOf (c :: t) = true
      · rw [if_pos hp, List.nil_append] at h
        obtain ⟨j, b, hd, hnp, ho⟩ := ih _ h
        have e := prefix_cons_drop old hold c t (List.isPrefixOf_iff_prefix.1 hp)
        refine ⟨j + 1, b, ?_, hnp, ho⟩
        rw [List.drop_zero, e, hd, List.replicate_succ, List.flatten_cons, List.append_assoc]
      · rw [if_neg hp] at h
        injection h with h1 h2
        subst h1
        refine ⟨0, t, by simp, ?_, h2.symm⟩
        rwa [← List.isPrefixOf_iff_prefix]

/-- The scan keeps nothing only of a run of occurrences of `old`. -/
theorem replaceScan_eq_nil (old : Str) (hold : old ≠ []) (t : Str) (k : Nat)
    (h : replaceScan old [] k t = []) :
    ∃ j, t.drop k = (List.replicate j old).flatten := by
  induction t generalizing k with
  | nil => exact ⟨0, by simp⟩
  | cons c t ih =>
    cases k with
    | succ k =>
      rw [replaceScan] at h
      obtain ⟨j, hd⟩ := ih k h
      exact ⟨j, by rw [List.drop_succ_cons]; exact hd⟩
    | zero =>
      rw [replaceScan] at h
      by_cases hp : old.isPrefixOf (c :: t) = true
      · rw [if_pos hp, List.nil_append] at h
        obtain ⟨j, hd⟩ := ih _ h
        have e := prefix_cons_drop old hold c t (List.isPrefixOf_iff_prefix.1 hp)
        refine ⟨j + 1, ?_⟩
        rw [List.drop_zero, e, hd, List.replicate_succ, List.flatten_cons]
      · rw [if_neg hp] at h
        simp at h

/-- The last character kept by the scan is followed by a run of occurrences of `old`
that ends the text. -/
theorem replaceScan_getLast (old : Str) (hold : old ≠ []) (t : Str) (k : Nat)
    (h : replaceScan old [] k t ≠ []) :
    ∃ a y j, t = a ++ y :: (List.replicate j old).flatten
      ∧ (replaceScan old [] k t).getLast? = some y := by
  induction t generalizing k with
  | nil => cases k <;> simp [replaceScan] at h
  | cons c t ih =>
    cases k with
    | succ k =>
      rw [replaceScan] at h ⊢
      obtain ⟨a, y, j, ht, hl⟩ := ih k h
      exact ⟨c :: a, y, j, by rw [ht]; rfl, hl⟩
    | zero =>
      rw [replaceScan] at h ⊢
      by_cases hp : old.isPrefixOf (c :: t) = true
      · rw [if_pos hp, List.nil_append] at h ⊢
        obtain ⟨a, y, j, ht, hl⟩ := ih _ h
        exact ⟨c :: a, y, j, by rw [ht]; rfl, hl⟩
      · rw [if_neg hp]
        by_cases hn : replaceScan old [] 0 t = []
        · obtain ⟨j, hd⟩ := replaceScan_eq_nil old hold t 0 hn
          rw [List.drop_zero] at hd
          exact ⟨[], c, j, by rw [hd]; rfl, by rw [hn]; rfl⟩
        · obtain ⟨a, y, j, ht, hl⟩ := ih 0 hn
          refine ⟨c :: a, y, j, by rw [ht]; rfl, ?_⟩
          rw [List.getLast?_cons, hl]
          rfl

/-! ## Auxiliary facts: texts that trimming leaves unchanged -/

theorem Trim_eq_self_of (cutset m : Str)
    (hh : ∀ x, m.head? = some x → inCutset cutset x = false)
    (hl : ∀ y, m.getLast? = some y → inCutset cutset y = false) :
    Trim m cutset = m := by
  have h1 : TrimRight m cutset = m := by
    rw [TrimRight_eq_rdropWhile, List.rdropWhile_eq_self_iff]
    intro hne
    rw [hl _ (List.getLast?_eq_getLast m hne)]
    exact Bool.false_ne_true
  rw [Trim, h1, TrimLeft, List.dropWhile_eq_self_iff]
  intro hpos
  have hne : m ≠ [] := List.length_pos.1 hpos
  have e : m.head? = some (m.get ⟨0, hpos⟩) := by
    cases m with
    | nil => exact absurd rfl hne
    | cons a l => rfl
  rw [hh _ e]
  exact Bool.false_ne_true

theorem Trim_head (cutset s : Str) (x : Char) (h : (Trim s cutset).head? = some x) :
    inCutset cutset x = false := by
  have := List.head?_dropWhile_not (inCutset cutset) (TrimRight s cutset)
  unfold Trim TrimLeft at h
  rw [h] at this
  exact this

theorem Trim_getLast (cutset s : Str) (y : Char) (h : (Trim s cutset).getLast? = some y) :
    inCutset cutset y = false := by
  unfold Trim TrimLeft at h
  have hne : List.dropWhile (inCutset cutset) (TrimRight s cutset) ≠ [] := by
    intro e
    rw [e] at h
    simp at h
  obtain ⟨a, ha⟩ := List.dropWhile_suffix (inCutset cutset) (l := TrimRight s cutset)
  have hu : (TrimRight s cutset).getLast? = some y := by
    rw [← ha, List.getLast?_append, h]
    rfl
  have hne2 : List.rdropWhile (inCutset cutset) s ≠ [] := by
    intro e
    rw [TrimRight_eq_rdropWhile, e] at hu
    simp at hu
  have hnot := List.rdropWhile_last_not (inCutset cutset) s hne2
  rw [TrimRight_eq_rdropWhile, List.getLast?_eq_getLast _ hne2] at hu
  simp only [Option.some.injEq] at hu
  rw [hu] at hnot
  simpa using hnot

theorem Trim_idem (cutset s : Str) : Trim (Trim s cutset) cutset = Trim s cutset :=
  Trim_eq_self_of cutset _ (Trim_head cutset s) (Trim_getLast cutset s)

theorem copies_succ_right (old : Str) (j : Nat) :
    (List.replicate (j + 1) old).flatten = (List.replicate j old).flatten ++ old := by
  induction j with
  | zero => simp
  | succ n ih =>
    calc (List.replicate (n + 1 + 1) old).flatten
        = old ++ (List.replicate (n + 1) old).flatten := by
          rw [List.replicate_succ, List.flatten_cons]
      _ = old ++ ((List.replicate n old).flatten ++ old) := by rw [ih]
      _ = (List.replicate (n + 1) old).flatten ++ old := by
          rw [List.replicate_succ, List.flatten_cons, List.append_assoc]

/-- Stripping `old` from a trimmed text leaves a trimmed text, when no occurrence of
`old` touches a cutset character. -/
theorem Trim_replaceScan (cutset old t : Str) (hold : old ≠ [])
    (ht : Trim t cutset = t)
    (hc : ∀ x ∈ cutset, ¬ old ++ [x] <:+: t ∧ ¬ x :: old <:+: t) :
    Trim (replaceScan old [] 0 t) cutset = replaceScan old [] 0 t := by
  have hcut : ∀ x, inCutset cutset x = false ∨ x ∈ cutset := by
    intro x
    by_cases hx : x ∈ cutset
    · exact Or.inr hx
    · exact Or.inl (inCutset_eq_false hx)
  apply Trim_eq_self_of
  · intro x hx
    cases hm : replaceScan old [] 0 t with
    | nil => rw [hm] at hx; simp at hx
    | cons x2 o =>
      rw [hm] at hx
      simp only [List.head?_cons, Option.some.injEq] at hx
      subst hx
      obtain ⟨j, b, hd, _, _⟩ := replaceScan_head old hold t 0 x2 o hm
      rw [List.drop_zero] at hd
      cases j with
      | zero =>
        apply Trim_head cutset t
        rw [ht, hd]
        rfl
      | succ j =>
        rcases hcut x2 with h | h
        · exact h
        · exfalso
          apply (hc x2 h).1
          refine ⟨(List.replicate j old).flatten, b, ?_⟩
          rw [hd, copies_succ_right]
          simp
  · intro y hy
    have hne : replaceScan old [] 0 t ≠ [] := by
      intro e
      rw [e] at hy
      simp at hy
    obtain ⟨a, y2, j, htt, hl⟩ := replaceScan_getLast old hold t 0 hne
    rw [hl] at hy
    simp only [Option.some.injEq] at hy
    subst hy
    cases j with
    | zero =>
      apply Trim_getLast cutset t
      rw [ht, htt]
      simp
    | succ j =>
      rcases hcut y2 with h | h
      · exact h
      · exfalso
        apply (hc y2 h).2
        refine ⟨a, (List.replicate j old).flatten, ?_⟩
        rw [htt, List.replicate_succ, List.flatten_cons]
        simp

/-- One pass of the scan leaves no occurrence of the quote artifact, when the text
holds neither `ss:"` nor `:s:"`. -/
theorem no_artifact_after_scan (t : Str) (k : Nat)
    (h1 : ¬ 's' :: quoteArtifact <:+: t) (h2 : ¬ ':' :: quoteArtifact <:+: t) :
    ¬ quoteArtifact <:+: replaceScan quoteArtifact [] k t := by
  have hq : quoteArtifact ≠ [] := by decide
  induction t generalizing k with
  | nil =>
    have e : replaceScan quoteArtifact [] k [] = [] := by cases k <;> rfl
    rw [e]
    decide
  | cons c t ih =>
    have h1t : ¬ 's' :: quoteArtifact <:+: t := fun e => h1 (List.infix_cons e)
    have h2t : ¬ ':' :: quoteArtifact <:+: t := fun e => h2 (List.infix_cons e)
    cases k with
    | succ k =>
      rw [replaceScan]
      exact ih k h1t h2t
    | zero =>
      rw [replaceScan]
      by_cases hp : quoteArtifact.isPrefixOf (c :: t) = true
      · rw [if_pos hp, List.nil_append]
        exact ih _ h1t h2t
      · rw [if_neg hp]
        intro hin
        rcases List.infix_cons_iff.1 hin with hpre | hin2
        · obtain ⟨rest, hrest⟩ := hpre
          have hrest2 : 's' :: ':' :: '"' :: rest = c :: replaceScan quoteArtifact [] 0 t :=
            hrest
          injection hrest2 with hcs ho
          obtain ⟨j, b, hd, _, hb⟩ := replaceScan_head quoteArtifact hq t 0 ':' _ ho.symm
          obtain ⟨i, b2, hd2, _, _⟩ := replaceScan_head quoteArtifact hq b 0 '"' rest hb.symm
          rw [List.drop_zero] at hd hd2
          cases j with
          | succ j =>
            apply h1
            rw [hd, ← hcs, List.replicate_succ, List.flatten_cons]
            exact ⟨[], (List.replicate j quoteArtifact).flatten ++ ':' :: b, by simp⟩
          | zero =>
            cases i with
            | succ i =>
              apply h2t
              rw [hd, hd2, List.replicate_succ, List.flatten_cons]
              exact ⟨[], (List.replicate i quoteArtifact).flatten ++ '"' :: b2, by simp⟩
            | zero =>
              apply hp
              rw [List.isPrefixOf_iff_prefix, hd, hd2, ← hcs]
              exact ⟨b2, rfl⟩
        · exact ih 0 h1t h2t hin2

theorem ReplaceAll_quoteArtifact (t : Str) :
    ReplaceAll t quoteArtifact [] = replaceScan quoteArtifact [] 0 t := rfl

/-- The message of `getRootCause` is the trimmed text of `trimmedMessage` without
the quote artifact. -/
theorem getRootCause_message (input : Str) :
    ∃ rc, getRootCause input = some rc
      ∧ rc.rootCauseMessage = ReplaceAll (trimmedMessage input) quoteArtifact []
      ∧ Trim (trimmedMessage input) trimCutset = trimmedMessage input := by
  rcases find_shape errMessageRegEx (Trim input trimCutset) with h | ⟨w, s, h⟩
  · have e : trimmedMessage input = "panic in execution".toList := by
      unfold trimmedMessage
      rw [h]
    refine ⟨_, getRootCause_of_no_match _ h, ?_, ?_⟩
    · rw [e]
      decide
    · rw [e]
      decide
  · have e := trimmedMessage_of_match input w s h
    refine ⟨_, getRootCause_of_match _ w s h, ?_, ?_⟩
    · rw [e]
      unfold rootCauseOfSegment
      split_ifs <;> rfl
    · rw [e]
      exact Trim_idem _ _

/-! ## The claims on the cleaned message -/

/-- Counterexample of C12: the segment is a space, the quote artifact, a space and
`foo`; after trimming, stripping the artifact uncovers the second space. -/
theorem retrim_counterexample :
    getRootCause "Error: s:\" foo\nTest: Test_A".toList = some ⟨assertionIssue, " foo".toList⟩
      ∧ Trim " foo".toList trimCutset = "foo".toList
      ∧ Trim " foo".toList trimCutset ≠ " foo".toList := by
  decide

/-- C12, amended. Re-trimming is a no-op on the message of every input in whose
trimmed text (the argument of the last `strings.ReplaceAll`) no occurrence of the
quote artifact is directly followed or directly preceded by a character of the trim
set. That trimmed text itself is always unchanged by trimming. -/
theorem retrim_noop (input : Str)
    (hc : ∀ x ∈ trimCutset, ¬ quoteArtifact ++ [x] <:+: trimmedMessage input
      ∧ ¬ x :: quoteArtifact <:+: trimmedMessage input) :
    ∃ rc, getRootCause input = some rc
      ∧ rc.rootCauseMessage = ReplaceAll (trimmedMessage input) quoteArtifact []
      ∧ Trim (trimmedMessage input) trimCutset = trimmedMessage input
      ∧ Trim rc.rootCauseMessage trimCutset = rc.rootCauseMessage := by
  obtain ⟨rc, h1, h2, h3⟩ := getRootCause_message input
  refine ⟨rc, h1, h2, h3, ?_⟩
  rw [h2, ReplaceAll_quoteArtifact]
  exact Trim_replaceScan trimCutset quoteArtifact _ (by decide) h3 hc

/-- Witness of C12: the `errorString` line, where the artifact stands between a
brace and a letter. -/
theorem retrim_noop_witness :
    ∃ rc, getRootCause
          "Error:  &errors.errorString\x7bs:\"connection refused\"\x7d\nTest: Test_A".toList
        = some rc
      ∧ rc.rootCauseMessage
        = ReplaceAll (trimmedMessage
            "Error:  &errors.errorString\x7bs:\"connection refused\"\x7d\nTest: Test_A".toList)
            quoteArtifact []
      ∧ Trim (trimmedMessage
            "Error:  &errors.errorString\x7bs:\"connection refused\"\x7d\nTest: Test_A".toList)
          trimCutset
        = trimmedMessage
            "Error:  &errors.errorString\x7bs:\"connection refused\"\x7d\nTest: Test_A".toList
      ∧ Trim rc.rootCauseMessage trimCutset = rc.rootCauseMessage :=
  retrim_noop "Error:  &errors.errorString\x7bs:\"connection refused\"\x7d\nTest: Test_A".toList
    (by decide)

/-- Counterexample of C13: in `ss:":"` one pass removes the artifact that starts at
the second character and brings `s` and `:"` together. -/
theorem restrip_counterexample :
    getRootCause "Error: ss:\":\"\nTest: Test_A".toList
        = some ⟨assertionIssue, ['s', ':', '"']⟩
      ∧ Contains ['s', ':', '"'] quoteArtifact = true
      ∧ ReplaceAll ['s', ':', '"'] quoteArtifact [] ≠ ['s', ':', '"'] := by
  decide

/-- C13, amended. Re-stripping is a no-op on the message of every input whose
trimmed text (the argument of the last `strings.ReplaceAll`) holds neither `ss:"`
nor `:s:"`: the message has no occurrence of the quote artifact, and replacing the
artifact in it changes nothing. -/
theorem restrip_noop (input : Str)
    (h1 : ¬ 's' :: quoteArtifact <:+: trimmedMessage input)
    (h2 : ¬ ':' :: quoteArtifact <:+: trimmedMessage input) :
    ∃ rc, getRootCause input = some rc
      ∧ ¬ quoteArtifact <:+: rc.rootCauseMessage
      ∧ ReplaceAll rc.rootCauseMessage quoteArtifact [] = rc.rootCauseMessage := by
  obtain ⟨rc, e1, e2, _⟩ := getRootCause_message input
  have hno : ¬ quoteArtifact <:+: rc.rootCauseMessage := by
    rw [e2, ReplaceAll_quoteArtifact]
    exact no_artifact_after_scan _ 0 h1 h2
  exact ⟨rc, e1, hno, by
    rw [ReplaceAll_quoteArtifact]
    exact replaceScan_of_not_infix _ _ _ hno⟩

/-- Witness of C13: the `errorString` line, whose artifact follows a brace. -/
theorem restrip_noop_witness :
    ∃ rc, getRootCause
          "Error:  &errors.errorString\x7bs:\"connection refused\"\x7d\nTest: Test_A".toList
        = some rc
      ∧ ¬ quoteArtifact <:+: rc.rootCauseMessage
      ∧ ReplaceAll rc.rootCauseMessage quoteArtifact [] = rc.rootCauseMessage :=
  restrip_noop "Error:  &errors.errorString\x7bs:\"connection refused\"\x7d\nTest: Test_A".toList
    (by decide) (by decide)

end JunitParser
